import Mathlib

/-!
Verification of the record normalization and validation pipeline of the
member-directory static-site generator (scripts/build_members.py and
scripts/build_site.py), as a shallow embedding in Lean.

YAML scalar and container values are modelled by the inductive type `Val`;
Python dictionaries are modelled as association lists with insertion-order
semantics (`setKey` replaces in place, `getVal?` finds the unique
binding).  Python functions that can raise are embedded as `Except String`
computations; the message records the exception class.  String operations
are modelled over ASCII data (`Char.toLower`, `Char.isWhitespace`), which
is the domain all source data and the claims live in.
-/

/-- Values appearing in parsed YAML records: the subset of Python values the
pipeline manipulates (None, bool, int, str, list, dict with string keys). -/
inductive Val where
  | vnull : Val
  | vbool : Bool → Val
  | vint : Int → Val
  | vstr : String → Val
  | vlist : List Val → Val
  | vdict : List (String × Val) → Val

/-- Python truthiness (`bool(v)`) for embedded values. -/
def pyTruthy : Val → Bool
  | .vnull => false
  | .vbool b => b
  | .vint n => decide (n ≠ 0)
  | .vstr s => decide (s ≠ "")
  | .vlist l => !l.isEmpty
  | .vdict d => !d.isEmpty

mutual
/-- Python `repr(v)` for embedded values (string escaping is modelled only
for quote-free strings, which covers all data the pipeline formats). -/
def pyRepr : Val → String
  | .vnull => "None"
  | .vbool b => if b then "True" else "False"
  | .vint n => toString n
  | .vstr s => "\x27" ++ s ++ "\x27"
  | .vlist l => "[" ++ String.intercalate ", " (pyReprList l) ++ "]"
  | .vdict d => "\x7b" ++ String.intercalate ", " (pyReprDict d) ++ "\x7d"

/-- Elementwise `repr` of a list of values. -/
def pyReprList : List Val → List String
  | [] => []
  | v :: t => pyRepr v :: pyReprList t

/-- Entrywise `repr` of a string-keyed dictionary. -/
def pyReprDict : List (String × Val) → List String
  | [] => []
  | (k, v) :: t => ("\x27" ++ k ++ "\x27: " ++ pyRepr v) :: pyReprDict t
end

/-- Python `str(v)`: the identity on strings, `repr` otherwise. -/
def pyStr : Val → String
  | .vstr s => s
  | .vnull => pyRepr .vnull
  | .vbool b => pyRepr (.vbool b)
  | .vint n => pyRepr (.vint n)
  | .vlist l => pyRepr (.vlist l)
  | .vdict d => pyRepr (.vdict d)

/-- Python dictionary assignment `d[k] = v` on an insertion-ordered
association list: replace the binding in place if the key is present,
otherwise append it. -/
def setKey : List (String × Val) → String → Val → List (String × Val)
  | [], k, v => [(k, v)]
  | p :: t, k, v => if p.1 = k then (k, v) :: t else p :: setKey t k v

/-- Dictionary lookup `d.get(k)`: the value at the first (unique) binding
of `k`, if any. -/
def getVal? : List (String × Val) → String → Option Val
  | [], _ => none
  | p :: t, k => if p.1 = k then some p.2 else getVal? t k

/-- Lookup in a string-valued table (the `KEY_MAP` synonym dictionary). -/
def lookupStr : List (String × String) → String → Option String
  | [], _ => none
  | p :: t, k => if p.1 = k then some p.2 else lookupStr t k

/-- Python `k in d` for a string-keyed dictionary. -/
def hasKey (d : List (String × Val)) (k : String) : Bool :=
  (getVal? d k).isSome

/-- Contiguous-substring test on character data (Python `x in t` for
strings). -/
def isSubChars (pat : List Char) : List Char → Bool
  | [] => pat.isEmpty
  | c :: t => pat.isPrefixOf (c :: t) || isSubChars pat t

/-- Python `x in v` for a string `x`: key lookup on dicts, elementwise
equality on lists, substring test on strings; a `TypeError` otherwise. -/
def containsStr (v : Val) (x : String) : Except String Bool :=
  match v with
  | .vdict d => .ok (hasKey d x)
  | .vlist l => .ok (l.any (fun e => match e with | .vstr t => t == x | _ => false))
  | .vstr t => .ok (isSubChars x.data t.data)
  | _ => .error "TypeError: argument is not iterable"

/-- Python `str.strip()` on character data (ASCII whitespace). -/
def pyStripChars (l : List Char) : List Char :=
  ((l.dropWhile Char.isWhitespace).reverse.dropWhile Char.isWhitespace).reverse

/-- Python `str.strip()`. -/
def pyStrip (s : String) : String :=
  ⟨pyStripChars s.data⟩

/-- Python `str.lower()` (ASCII model). -/
def strLower (s : String) : String :=
  ⟨s.data.map Char.toLower⟩

/-- Strict lexicographic order on character data by code point: the order
Python uses to compare strings. -/
def lexLt : List Char → List Char → Bool
  | _, [] => false
  | [], _ :: _ => true
  | a :: as, b :: bs =>
    if a.toNat < b.toNat then true
    else if b.toNat < a.toNat then false
    else lexLt as bs

/-- Python `str.split()` with no separator: split on runs of whitespace,
discarding empty tokens. -/
def pySplitWs (l : List Char) : List (List Char) :=
  let step := fun c (acc : List Char × List (List Char)) =>
    if c.isWhitespace then
      match acc.1 with
      | [] => ([], acc.2)
      | w => (([] : List Char), w :: acc.2)
    else (c :: acc.1, acc.2)
  let r := l.foldr step ([], [])
  match r.1 with
  | [] => r.2
  | w => w :: r.2

namespace BuildMembers

/-- The canonical member record of `build_members.py` (the `Member`
dataclass).  Scalar canonical fields keep the raw value that survived the
`or None` coercion; `Name` and `Email` are the trimmed strings. -/
structure Member where
  id : String
  Name : String
  Email : Option String
  Campus : Option Val
  College : Option Val
  Department : Option Val
  Title : Option Val
  Research_Interests : Option Val
  Teaching_Interests : Option Val
  Sustainability_Contributions : Option Val
  Notes : Option Val
  Photo : Option Val
  Website : Option Val
  extras : Option (List (String × Val))

/-- The `KEY_MAP` synonym table (build_members.py lines 72-95). -/
def KEY_MAP : List (String × String) :=
  [("name", "Name"), ("email", "Email"), ("campus", "Campus"),
   ("college", "College"), ("department", "Department"), ("dept", "Department"),
   ("title", "Title"),
   ("research interests", "Research_Interests"),
   ("research_interests", "Research_Interests"),
   ("research", "Research_Interests"), ("focus", "Research_Interests"),
   ("teaching interests", "Teaching_Interests"),
   ("teaching_interests", "Teaching_Interests"),
   ("sustainability contributions", "Sustainability_Contributions"),
   ("sustainability_contributions", "Sustainability_Contributions"),
   ("notes", "Notes"), ("photo", "Photo"), ("image", "Photo"),
   ("website", "Website"), ("url", "Website"), ("id", "id"), ("slug", "id")]

/-- The `RECOMMENDED_FIELDS` list (build_members.py line 97). -/
def RECOMMENDED_FIELDS : List String :=
  ["Name", "Email", "Campus", "College", "Department", "Title"]

/-- Embedding of `_slugify` (build_members.py lines 99-104).  Its second
statement is `re.sub(r"[^a-z0-9\s-_]", "", text)`; under CPython (observed
on 3.11) that pattern is rejected with `re.error: bad character range
\s-_` because a character range may not start with the class escape `\s`.
The call therefore raises on every input, before any later step runs. -/
def slugifyCode (_text : Option String) : Except String String :=
  .error "re.error: bad character range \\s-_ at position 8"

/-- The result the spec ascribes to slugification, modelled from the spec
words (spec §3): lowercase, strip to `[a-z0-9\s_-]`, collapse
whitespace/underscore runs to `-`, collapse `-` runs, trim `-`, with
fallback literal `"member"`.  Used to compare the claims against what the
raising code would have computed. -/
def slugChar (c : Char) : Bool :=
  (97 ≤ c.toNat && c.toNat ≤ 122) || (48 ≤ c.toNat && c.toNat ≤ 57) ||
    c.isWhitespace || c == '-' || c == '_'

/-- Collapse each maximal run of whitespace or underscores to one `-`
(spec-modelled step of slugification, `re.sub(r"[\s_]+", "-", ...)`). -/
def collapseWsRuns : List Char → List Char
  | [] => []
  | [c] => if c.isWhitespace || c == '_' then ['-'] else [c]
  | c :: d :: t =>
    if c.isWhitespace || c == '_' then
      if d.isWhitespace || d == '_' then collapseWsRuns (d :: t)
      else '-' :: collapseWsRuns (d :: t)
    else c :: collapseWsRuns (d :: t)

/-- Collapse each maximal run of `-` to one `-` (spec-modelled step of
slugification, `re.sub(r"-+", "-", ...)`). -/
def collapseDashRuns : List Char → List Char
  | [] => []
  | [c] => [c]
  | c :: d :: t =>
    if c == '-' && d == '-' then collapseDashRuns (d :: t)
    else c :: collapseDashRuns (d :: t)

/-- Drop a trailing run of `-` (spec-modelled, right half of
`.strip("-")`). -/
def dropTrailingDash : List Char → List Char
  | [] => []
  | c :: t =>
    let r := dropTrailingDash t
    if r.isEmpty && c == '-' then [] else c :: r

/-- Modelled from the spec: the intended slugification (spec §3), which the
raising `_slugify` was written to compute. -/
def slugifySpec (text : Option String) : String :=
  let t := pyStripChars (text.getD "").data |>.map Char.toLower
  let t := t.filter slugChar
  let t := collapseDashRuns (collapseWsRuns t)
  let t := dropTrailingDash (t.dropWhile (· == '-'))
  if t.isEmpty then "member" else ⟨t⟩

/-- Characters that can appear in a slug produced by `slugifySpec`:
lowercase ASCII letters, digits, and `-`. -/
def slugOutChar (c : Char) : Bool :=
  (97 ≤ c.toNat && c.toNat ≤ 122) || (48 ≤ c.toNat && c.toNat ≤ 57) || c == '-'

/-- No two adjacent dashes. -/
def NoDD (l : List Char) : Prop :=
  l.Chain' (fun a b => ¬(a = '-' ∧ b = '-'))

/-- The invariant of nonempty `slugifySpec` output: slug characters only,
no dash runs, and no dash at either end. -/
def GoodSlug (l : List Char) : Prop :=
  (∀ c ∈ l, slugOutChar c = true) ∧ NoDD l ∧
    l.head? ≠ some '-' ∧ l.getLast? ≠ some '-'

/-- Read a scalar field the way `_normalize_member` does:
`str(norm.get(k, "") or "").strip()`. -/
def getStrField (norm : List (String × Val)) (k : String) : String :=
  match getVal? norm k with
  | some v => if pyTruthy v then pyStrip (pyStr v) else ""
  | none => ""

/-- The key-normalization loop of `_normalize_member` (build_members.py
lines 116-121): canonical keys accumulate into `norm`, unknown keys into
`extras`; a non-string key raises `AttributeError` at `k.strip()`. -/
def keyFoldAux (acc : List (String × Val) × List (String × Val)) :
    List (Val × Val) → Except String (List (String × Val) × List (String × Val))
  | [] => .ok acc
  | (k, v) :: t =>
    match k with
    | .vstr ks =>
      match lookupStr KEY_MAP (strLower (pyStrip ks)) with
      | some ck => keyFoldAux (setKey acc.1 ck v, acc.2) t
      | none => keyFoldAux (acc.1, setKey acc.2 ks v) t
    | _ => .error "AttributeError: object has no attribute \x27strip\x27"

/-- Fetch an optional canonical field: `norm.get(k) or None`. -/
def optField (norm : List (String × Val)) (k : String) : Option Val :=
  match getVal? norm k with
  | some v => if pyTruthy v then some v else none
  | none => none

/-- Embedding of `_normalize_member` (build_members.py lines 110-151).
The `id` derivation calls `_slugify`, which raises on every input (see
`slugifyCode`), so the function never reaches its `return`. -/
def normalizeMember (d : List (Val × Val)) : Except String (Member × List String) := do
  let (norm, extras) ← keyFoldAux ([], []) d
  let name := getStrField norm "Name"
  let email := getStrField norm "Email"
  let idSrc : Val :=
    match getVal? norm "id" with
    | some v => if pyTruthy v then v else (if email ≠ "" then .vstr email else .vstr name)
    | none => if email ≠ "" then .vstr email else .vstr name
  let mid ← (if pyTruthy idSrc then slugifyCode (some (pyStr idSrc))
             else slugifyCode (some name))
  let warns := (RECOMMENDED_FIELDS.filter (fun rf => getStrField norm rf == "")).map
    (fun rf => "missing " ++ rf)
  .ok ({ id := mid
         Name := if name ≠ "" then name else "Unnamed Member"
         Email := if email ≠ "" then some email else none
         Campus := optField norm "Campus"
         College := optField norm "College"
         Department := optField norm "Department"
         Title := optField norm "Title"
         Research_Interests := optField norm "Research_Interests"
         Teaching_Interests := optField norm "Teaching_Interests"
         Sustainability_Contributions := optField norm "Sustainability_Contributions"
         Notes := optField norm "Notes"
         Photo := optField norm "Photo"
         Website := optField norm "Website"
         extras := if extras.isEmpty then none else some extras }, warns)

/-- The `Member.Research_Interests_List` property (build_members.py lines
64-69): `[]` for None, the list itself for a list value, `[str(v)]` for a
bare scalar. -/
def researchInterestsList (m : Member) : List Val :=
  match m.Research_Interests with
  | none => []
  | some (.vlist l) => l
  | some v => [.vstr (pyStr v)]

/-- The sort key of `_collect_members` (build_members.py lines 170-172):
`(parts[-1].lower() if parts else m.Name.lower(), m.Name.lower())` where
`parts = m.Name.split()`. -/
def sortKey (m : Member) : List Char × List Char :=
  let nmL := (strLower m.Name).data
  let parts := pySplitWs m.Name.data
  (match parts.getLast? with
   | some p => p.map Char.toLower
   | none => nmL, nmL)

/-- Python tuple comparison `sortKey m₁ <= sortKey m₂` (lexicographic pair
of code-point-lexicographic strings). -/
def keyLe (a b : List Char × List Char) : Bool :=
  lexLt a.1 b.1 || (decide (a.1 = b.1) && (lexLt a.2 b.2 || decide (a.2 = b.2)))

/-- The ordering relation `sorted(members, key=sort_key)` sorts by. -/
def relM (m1 m2 : Member) : Prop :=
  keyLe (sortKey m1) (sortKey m2) = true

instance : DecidableRel relM :=
  fun m1 m2 => instDecidableEqBool (keyLe (sortKey m1) (sortKey m2)) true

/-- Embedding of `sorted(members, key=sort_key)` (build_members.py line
174): a stable sort with respect to `relM` (CPython's sort is stable;
`List.insertionSort` is the stable sort of the library). -/
def sortMembers (l : List Member) : List Member :=
  List.insertionSort relM l

/-- The per-file loop of `_collect_members` (build_members.py lines
159-167): each file either contributes a member (plus a warning note when
warnings exist) or an `ERROR` note when loading or normalization raises. -/
def collectAux (acc : List Member × List String) :
    List (String × Except String (List (Val × Val))) → List Member × List String
  | [] => acc
  | (fn, res) :: t =>
    match res with
    | .error e => collectAux (acc.1, acc.2 ++ [fn ++ ": ERROR " ++ e]) t
    | .ok raw =>
      match normalizeMember raw with
      | .error e => collectAux (acc.1, acc.2 ++ [fn ++ ": ERROR " ++ e]) t
      | .ok (m, warns) =>
        collectAux (acc.1 ++ [m],
          if warns.isEmpty then acc.2
          else acc.2 ++ [fn ++ ": " ++ String.intercalate "; " warns]) t

/-- Embedding of `_collect_members` (build_members.py lines 153-174): the
input is the sorted list of discovered files paired with their parse
results (`Except` models a raising `_load_yaml`). -/
def collectMembers (files : List (String × Except String (List (Val × Val)))) :
    List Member × List String :=
  let (ms, notes) := collectAux ([], []) files
  (sortMembers ms, notes)

/-- The outcome of one run of `build()` : exit code, names of output files
written, the member collection serialized, and the collected notes. -/
structure BuildRun where
  exitCode : Nat
  written : List String
  members : List Member
  notes : List String

/-- Embedding of `build()` (build_members.py lines 292-305): a missing
members directory raises `SystemExit`; otherwise the site index and both
JSON files are written and the run exits 0, whatever the member count. -/
def build (membersDirExists : Bool)
    (files : List (String × Except String (List (Val × Val)))) :
    Except String BuildRun :=
  if !membersDirExists then
    .error "SystemExit: Members directory not found"
  else
    let (ms, notes) := collectMembers files
    .ok { exitCode := 0
          written := ["site/index.html", "data/members.json", "site/members.json"]
          members := ms
          notes := notes }

end BuildMembers

namespace BuildSite

/-- A site record: the string-keyed mapping parsed from one member YAML
file of the site variant. -/
def Rec : Type := List (String × Val)

/-- The `Path(...).stem` convention (also `.suffix`): the last dot splits
off a suffix only when it is neither at the start nor at the very end of
the name. -/
def stemCore (name : String) : String :=
  let cs := name.data
  match cs.reverse.findIdx? (fun c => c == '.') with
  | none => name
  | some j =>
    let i := cs.length - 1 - j
    if 0 < i && i + 1 < cs.length then ⟨cs.take i⟩ else name

/-- Embedding of `get_member_id_from_filename` (build_site.py lines
26-28): `Path(filename).stem` of a plain file name. -/
def getMemberIdFromFilename (filename : String) : String :=
  stemCore filename

/-- Hexadecimal digit characters for percent-encoding. -/
def hexChar (n : Nat) : Char :=
  "0123456789ABCDEF".data.getD n '0'

/-- Byte admitted verbatim by `urllib.parse.quote` with the default
`safe="/"`: unreserved characters `A-Z a-z 0-9 _ . - ~` or `/`. -/
def quoteSafeByte (n : Nat) : Bool :=
  (65 ≤ n && n ≤ 90) || (97 ≤ n && n ≤ 122) || (48 ≤ n && n ≤ 57) ||
    n == 95 || n == 46 || n == 45 || n == 126 || n == 47

/-- Model of `urllib.parse.quote(s)` (default `safe="/"`): UTF-8 bytes,
percent-encoded except for safe bytes. -/
def pctQuote (s : String) : String :=
  ⟨(s.data.flatMap (fun c => (String.utf8EncodeChar c).map UInt8.toNat)).flatMap
    (fun n => if quoteSafeByte n then [Char.ofNat n] else ['%', hexChar (n / 16), hexChar (n % 16)])⟩

/-- Model of `urllib.parse.urlparse(u).path` for the absolute http(s) URLs
the script feeds it: the part after the scheme-and-netloc prefix, cut at a
query or fragment delimiter. -/
def urlPathOf (u : String) : String :=
  match u.splitOn "://" with
  | [] => ""
  | [only] => ⟨only.data.takeWhile (fun c => !(c == '?' || c == '#'))⟩
  | _ :: rest =>
    let r := String.intercalate "://" rest
    ⟨(r.data.dropWhile (fun c => !(c == '/'))).takeWhile (fun c => !(c == '?' || c == '#'))⟩

/-- Model of `PurePosixPath(p).stem`: the stem of the last nonempty path
component. -/
def posixStem (p : String) : String :=
  match ((p.splitOn "/").filter (fun s => s ≠ "")).getLast? with
  | none => ""
  | some nm => stemCore nm

/-- The ChemCompute launch URL construction (build_site.py lines 56-73). -/
def chemcomputeLaunch (repoUrl : String) : String :=
  let stub := "https://chemcompute.org/jupyterhub_internal/hub/user-redirect/git-pull?repo="
  let repoPath := posixStem (urlPathOf repoUrl)
  let urlpath := "lab/tree/" ++ repoPath ++ "/"
  stub ++ pctQuote repoUrl ++ "&branch=main" ++ "&urlpath=" ++ pctQuote urlpath

/-- The shared `INSTRUCTOR_REPO` constant (build_site.py line 19). -/
def INSTRUCTOR_REPO : String := "csu-climate/members"

/-- The field assignments at the head of `process_member_data`
(build_site.py lines 32-42): the id, the shared instructor repo and path,
and the `"N/A"` fallback for a missing `instructor_email`. -/
def withComputedFields (d : List (String × Val)) (memberId : String) :
    List (String × Val) :=
  let d := setKey d "id" (.vstr memberId)
  let d := setKey d "instructor_repo" (.vstr INSTRUCTOR_REPO)
  let d := setKey d "instructor_repo_path" (.vstr memberId)
  if hasKey d "instructor_email" then d
  else setKey d "instructor_email" (.vstr "N/A")

/-- Embedding of `process_member_data` (build_site.py lines 30-75).
`.ok none` models the `return None` rejection paths (legacy format or no
materials); `.error` models the uncaught `KeyError`/`TypeError` raised when
`platforms` is absent or not a container, or `public_repo_url` is absent or
not a string on the ChemCompute branch. -/
def processMemberData (d0 : List (String × Val)) (memberId : String) :
    Except String (Option (List (String × Val))) :=
  let d := withComputedFields d0 memberId
  if !hasKey d "materials" then
    .ok none
  else
    match getVal? d "platforms" with
    | none => .error "KeyError: \x27platforms\x27"
    | some pv =>
      match containsStr pv "ChemCompute" with
      | .error e => .error e
      | .ok false => .ok (some d)
      | .ok true =>
        match getVal? d "public_repo_url" with
        | none => .error "KeyError: \x27public_repo_url\x27"
        | some (.vstr ru) =>
          .ok (some (setKey d "chemcompute_launch" (.vstr (chemcomputeLaunch ru))))
        | some _ => .error "TypeError: urlparse expects a string"

/-- The `required_fields` list of `validate_member_data` (build_site.py
lines 180-185). -/
def requiredFields : List String :=
  ["title", "description", "programming_skill", "primary_course",
   "authors", "format", "scientific_objectives",
   "cyberinfrastructure_objectives", "platforms", "materials",
   "public_repo_url"]

/-- The `required_material_fields` list (build_site.py line 233). -/
def requiredMaterialFields : List String :=
  ["title", "description", "type", "duration"]

/-- The inner `for field in required_material_fields` loop (build_site.py
lines 234-237): the first field not contained in the material, if any. -/
def firstMissingField (material : Val) : List String → Except String (Option String)
  | [] => .ok none
  | f :: t => do
    if !(← containsStr material f) then .ok (some f)
    else firstMissingField material t

/-- One iteration of the materials loop of `validate_member_data`
(build_site.py lines 232-250) on the zero-based `i`-th material: the first
failed check yields `(false, [message])`; `.error` models the `TypeError`
raised when the material is not a container or is subscripted by a string. -/
def checkMaterial (filename : String) (i : Nat) (material : Val) :
    Except String (Bool × List String) := do
  match ← firstMissingField material requiredMaterialFields with
  | some f =>
    .ok (false, ["Error: " ++ filename ++ " material " ++ toString (i + 1) ++
                 " is missing required field: " ++ f])
  | none => do
    let hasGit ← containsStr material "github_url"
    let hasColab ← containsStr material "colab_url"
    if !hasGit && !hasColab then
      .ok (false, ["Error: " ++ filename ++ " material " ++ toString (i + 1) ++
                   " must have either github_url or colab_url"])
    else do
      let urlCheck := fun (urlField : String) (cont : Except String (Bool × List String)) => do
        if (← containsStr material urlField) then
          match material with
          | .vdict md =>
            match getVal? md urlField with
            | some (.vstr u) =>
              if "http".data.isPrefixOf u.data then cont
              else .ok (false, ["Error: " ++ filename ++ " material " ++ toString (i + 1) ++
                                " " ++ urlField ++ " must be a valid HTTP/HTTPS URL"])
            | some _ =>
              .ok (false, ["Error: " ++ filename ++ " material " ++ toString (i + 1) ++
                           " " ++ urlField ++ " must be a valid HTTP/HTTPS URL"])
            | none => .error "KeyError"
          | _ => .error "TypeError: indices must be integers"
        else cont
      urlCheck "github_url" (urlCheck "colab_url" (.ok (true, [])))

/-- The materials loop of `validate_member_data`: checks materials in
order, stopping at the first failure. -/
def checkMaterials (filename : String) (i : Nat) :
    List Val → Except String (Bool × List String)
  | [] => .ok (true, [])
  | m :: t => do
    let (ok, msgs) ← checkMaterial filename i m
    if ok then checkMaterials filename (i + 1) t
    else .ok (ok, msgs)

/-- The `optional_instructor_fields` type table (build_site.py lines
188-193), with each field's expected-type test and the type name printed
on mismatch.  `isinstance(x, (int, float))` accepts Python bools, which
are ints. -/
def optionalInstructorFields : List (String × (Val → Bool) × String) :=
  [("student_level", fun v => v matches .vstr _, "str"),
   ("students_piloted",
    fun v => (v matches .vint _) || (v matches .vbool _),
    "(<class \x27int\x27>, <class \x27float\x27>)"),
   ("instructor_notes", fun v => v matches .vstr _, "str"),
   ("related_modules", fun v => v matches .vlist _, "list")]

/-- The optional-field loop of `validate_member_data` (build_site.py lines
205-210): first present field of the wrong type fails. -/
def checkOptionalFields (d : List (String × Val)) (filename : String) :
    List (String × (Val → Bool) × String) → Bool × List String
  | [] => (true, [])
  | (f, ty, tyName) :: t =>
    match getVal? d f with
    | some v =>
      if ty v then checkOptionalFields d filename t
      else (false, ["Error: " ++ filename ++ " field \x27" ++ f ++ "\x27 should be " ++ tyName])
    | none => checkOptionalFields d filename t

/-- Embedding of `validate_member_data` (build_site.py lines 178-259).
Returns the accept/reject flag together with the error messages printed;
the function prints at most one message, at its first failed check. -/
def validateMemberData (d : List (String × Val)) (filename : String) :
    Except String (Bool × List String) := do
  let missing := requiredFields.filter (fun f => !hasKey d f)
  if !missing.isEmpty then
    .ok (false, ["Error: " ++ filename ++ " is missing required fields: " ++
                 pyStr (.vlist (missing.map .vstr))])
  else
    let (okOpt, msgsOpt) := checkOptionalFields d filename optionalInstructorFields
    if !okOpt then .ok (false, msgsOpt)
    else
      let relOk :=
        match getVal? d "related_modules" with
        | some (.vlist l) => l.all (fun v => v matches .vstr _)
        | _ => true
      if !relOk then
        .ok (false, ["Error: " ++ filename ++ " related_modules should be a list of strings"])
      else if hasKey d "notebook" || hasKey d "notebooks" then
        .ok (false, ["Error: " ++ filename ++
          " uses legacy notebook/notebooks format. Please convert to materials format with explicit URLs."])
      else
        match getVal? d "materials" with
        | some (.vlist mats) =>
          if mats.isEmpty then
            .ok (false, ["Error: " ++ filename ++ " materials list cannot be empty"])
          else do
            let (okM, msgsM) ← checkMaterials filename 0 mats
            if !okM then .ok (false, msgsM)
            else
              match getVal? d "authors" with
              | some v =>
                if (v matches .vlist _) || (v matches .vstr _) then .ok (true, [])
                else .ok (false, ["Error: " ++ filename ++ " authors field must be a list or string"])
              | none => .ok (true, [])
        | some _ =>
          .ok (false, ["Error: " ++ filename ++ " materials field must be a list"])
        | none => .error "KeyError: \x27materials\x27"

/-- Stable sort of processed records by the string under their `title`
key (build_site.py line 95, `members.sort(key=lambda x: x["title"])`),
lexicographic by code point as Python compares strings. -/
def relTitle (r1 r2 : List (String × Val)) : Prop :=
  (let t := fun (r : List (String × Val)) => pyStr ((getVal? r "title").getD .vnull)
   lexLt (t r1).data (t r2).data || decide ((t r1).data = (t r2).data)) = true

instance : DecidableRel relTitle :=
  fun _r1 _r2 => instDecidableEqBool _ true

/-- Python `list.sort(key=lambda x: x["title"])`, which raises `KeyError`
on a record without a `title` and `TypeError` when the titles are not
strings of one comparable type. -/
def sortByTitle (ms : List (List (String × Val))) :
    Except String (List (List (String × Val))) :=
  if ms.all (fun r => hasKey r "title") then
    if ms.all (fun r => (getVal? r "title").getD .vnull matches .vstr _) then
      .ok (List.insertionSort relTitle ms)
    else .error "TypeError: unorderable title types"
  else .error "KeyError: \x27title\x27"

/-- Embedding of `build_members_json` (build_site.py lines 77-103): every
file is loaded, given the filename-stem id by `process_member_data`, and
appended unless processing returned `None`; the collection is then sorted
by title and written as `members.json`. -/
def buildMembersJson (files : List (String × List (String × Val))) :
    Except String (List (List (String × Val))) := do
  let ms ← files.foldlM
    (fun (acc : List (List (String × Val))) (f : String × List (String × Val)) => do
      match ← processMemberData f.2 (getMemberIdFromFilename f.1) with
      | some r => pure (acc ++ [r])
      | none => pure acc)
    []
  sortByTitle ms

/-- The outcome of one run of `main()` of build_site.py: exit code, the
members array written to `members.json` (`none` when the run stopped
before writing it), and the error messages printed. -/
structure MainRun where
  exitCode : Nat
  output : Option (List (List (String × Val)))
  logs : List String

/-- Embedding of `main()` (build_site.py lines 261-330): directory and
file-discovery preconditions, the validate-all pass (aborting before any
output when any record is invalid), then `build_members_json` inside the
`try` block whose exceptions end the run with exit code 1. -/
def main (membersDirExists templatesDirExists : Bool) (membersDir : String)
    (files : List (String × List (String × Val))) : MainRun :=
  if !membersDirExists then
    { exitCode := 1, output := none,
      logs := ["Error: Member directory " ++ membersDir ++ " not found"] }
  else if !templatesDirExists then
    { exitCode := 1, output := none,
      logs := ["Error: Templates directory not found"] }
  else if files.isEmpty then
    { exitCode := 1, output := none,
      logs := ["Error: No .yml files found in " ++ membersDir] }
  else
    match files.foldlM
      (fun (acc : Bool × List String) (f : String × List (String × Val)) => do
        let (ok, msgs) ← validateMemberData f.2 f.1
        pure (acc.1 && ok, acc.2 ++ msgs))
      (true, []) with
    | .error e => { exitCode := 1, output := none, logs := [e] }
    | .ok (valid, msgs) =>
      if !valid then
        { exitCode := 1, output := none,
          logs := msgs ++ ["Error: Some member files have validation errors"] }
      else
        match buildMembersJson files with
        | .error e => { exitCode := 1, output := none, logs := ["Build failed: " ++ e] }
        | .ok members =>
          if members.isEmpty then
            { exitCode := 1, output := some members,
              logs := ["Error: No valid members found after processing"] }
          else
            { exitCode := 0, output := some members, logs := [] }

end BuildSite

section ConcreteInputs

open BuildMembers BuildSite

/-- A member record named "Ann Zephyr" (spec §8 sorting example). -/
def annZephyr : Member :=
  { id := "ann", Name := "Ann Zephyr", Email := none, Campus := none,
    College := none, Department := none, Title := none,
    Research_Interests := none, Teaching_Interests := none,
    Sustainability_Contributions := none, Notes := none, Photo := none,
    Website := none, extras := none }

/-- A member record named "Bob Zephyr" (spec §8 sorting example). -/
def bobZephyr : Member :=
  { id := "bob", Name := "Bob Zephyr", Email := none, Campus := none,
    College := none, Department := none, Title := none,
    Research_Interests := none, Teaching_Interests := none,
    Sustainability_Contributions := none, Notes := none, Photo := none,
    Website := none, extras := none }

/-- A member whose research-interests value is the list `[7]` of
non-strings. -/
def memberIntInterests : Member :=
  { id := "x", Name := "X", Email := none, Campus := none,
    College := none, Department := none, Title := none,
    Research_Interests := some (.vlist [.vint 7]), Teaching_Interests := none,
    Sustainability_Contributions := none, Notes := none, Photo := none,
    Website := none, extras := none }

/-- A site record carrying an explicit `id: custom` field (and the minimal
keys `process_member_data` needs to accept it). -/
def recExplicitId : List (String × Val) :=
  [("id", .vstr "custom"), ("platforms", .vlist []), ("materials", .vlist [.vdict []])]

/-- A site record with none of the required fields. -/
def recAllMissing : List (String × Val) :=
  [("x", .vint 1)]

/-- A materials entry with all four sub-fields but no URL field. -/
def matNoUrl : Val :=
  .vdict [("title", .vstr "M"), ("description", .vstr "D"),
          ("type", .vstr "notebook"), ("duration", .vstr "1 hour")]

/-- A materials entry whose `github_url` is `"not-a-url"`. -/
def matBadUrl : Val :=
  .vdict [("title", .vstr "M"), ("description", .vstr "D"),
          ("type", .vstr "notebook"), ("duration", .vstr "1 hour"),
          ("github_url", .vstr "not-a-url")]

/-- A materials entry whose `github_url` is `"https://x"`. -/
def matGoodUrl : Val :=
  .vdict [("title", .vstr "M"), ("description", .vstr "D"),
          ("type", .vstr "notebook"), ("duration", .vstr "1 hour"),
          ("github_url", .vstr "https://x")]

/-- A site record with every required field present whose single materials
entry is `matBadUrl`. -/
def recBadMaterial : List (String × Val) :=
  [("title", .vstr "T"), ("description", .vstr "D"),
   ("programming_skill", .vstr "none"), ("primary_course", .vstr "Chem"),
   ("authors", .vstr "A"), ("format", .vstr "lab"),
   ("scientific_objectives", .vlist [.vstr "s"]),
   ("cyberinfrastructure_objectives", .vlist [.vstr "c"]),
   ("platforms", .vlist [.vstr "Jupyter"]),
   ("materials", .vlist [matBadUrl]),
   ("public_repo_url", .vstr "https://github.com/u/r")]

/-- A site record accepted by `process_member_data` that has no
`instructor_email` field. -/
def recNoEmail : List (String × Val) :=
  [("materials", .vlist [.vdict []]), ("platforms", .vlist [])]

/-- A fully valid site record (every required field, one well-formed
material). -/
def recGood : List (String × Val) :=
  [("title", .vstr "T"), ("description", .vstr "D"),
   ("programming_skill", .vstr "none"), ("primary_course", .vstr "Chem"),
   ("authors", .vstr "A"), ("format", .vstr "lab"),
   ("scientific_objectives", .vlist [.vstr "s"]),
   ("cyberinfrastructure_objectives", .vlist [.vstr "c"]),
   ("platforms", .vlist [.vstr "Jupyter"]),
   ("materials", .vlist [matGoodUrl]),
   ("public_repo_url", .vstr "https://github.com/u/r")]

/-- The record `process_member_data` produces from `recNoEmail` with
member id `alice`. -/
def recNoEmailOut : List (String × Val) :=
  [("materials", .vlist [.vdict []]), ("platforms", .vlist []),
   ("id", .vstr "alice"), ("instructor_repo", .vstr "csu-climate/members"),
   ("instructor_repo_path", .vstr "alice"), ("instructor_email", .vstr "N/A")]

/-- The record `process_member_data` produces from `recExplicitId` with
member id `bob`: the explicit `id: custom` is overwritten in place. -/
def recExplicitIdOut : List (String × Val) :=
  [("id", .vstr "bob"), ("platforms", .vlist []), ("materials", .vlist [.vdict []]),
   ("instructor_repo", .vstr "csu-climate/members"),
   ("instructor_repo_path", .vstr "bob"), ("instructor_email", .vstr "N/A")]

/-- The record `process_member_data` produces from `recGood` with member
id `a`. -/
def recGoodOut : List (String × Val) :=
  recGood ++
    [("id", .vstr "a"), ("instructor_repo", .vstr "csu-climate/members"),
     ("instructor_repo_path", .vstr "a"), ("instructor_email", .vstr "N/A")]

/-- A member whose research-interests value is the bare scalar `"ml"`. -/
def memberStrInterests : Member :=
  { id := "y", Name := "Y", Email := none, Campus := none,
    College := none, Department := none, Title := none,
    Research_Interests := some (.vstr "ml"), Teaching_Interests := none,
    Sustainability_Contributions := none, Notes := none, Photo := none,
    Website := none, extras := none }

end ConcreteInputs


theorem getVal?_setKey_self (d : List (String × Val)) (k : String) (v : Val) :
    getVal? (setKey d k v) k = some v := by
  induction d with
  | nil => simp [setKey, getVal?]
  | cons p t ih =>
    by_cases h : p.1 = k
    · simp [setKey, h, getVal?]
    · simp [setKey, h, getVal?, ih]

theorem getVal?_setKey_ne (d : List (String × Val)) {k k' : String} (v : Val)
    (h : k' ≠ k) : getVal? (setKey d k v) k' = getVal? d k' := by
  have hk : ¬ k = k' := Ne.symm h
  induction d with
  | nil => simp [setKey, getVal?, hk]
  | cons p t ih =>
    by_cases hp : p.1 = k
    · have hp2 : ¬ p.1 = k' := by rw [hp]; exact hk
      simp [setKey, hp, getVal?, hk, hp2]
    · by_cases hp' : p.1 = k'
      · simp [setKey, hp, getVal?, hp', h]
      · simp [setKey, hp, getVal?, hp', ih]

theorem hasKey_setKey_self (d : List (String × Val)) (k : String) (v : Val) :
    hasKey (setKey d k v) k = true := by
  simp [hasKey, getVal?_setKey_self]

theorem hasKey_setKey_ne (d : List (String × Val)) {k k' : String} (v : Val)
    (h : k' ≠ k) : hasKey (setKey d k v) k' = hasKey d k' := by
  simp [hasKey, getVal?_setKey_ne d v h]

theorem getVal?_of_hasKey_false {d : List (String × Val)} {k : String}
    (h : hasKey d k = false) : getVal? d k = none := by
  cases hv : getVal? d k with
  | none => rfl
  | some v => rw [hasKey, hv] at h; simp at h

section ProcessLemmas

open BuildSite

theorem withComputedFields_id (d : List (String × Val)) (mid : String) :
    getVal? (withComputedFields d mid) "id" = some (.vstr mid) := by
  unfold withComputedFields
  have h1 : ("id" : String) ≠ "instructor_repo" := by decide
  have h2 : ("id" : String) ≠ "instructor_repo_path" := by decide
  have h3 : ("id" : String) ≠ "instructor_email" := by decide
  by_cases h : hasKey (setKey (setKey (setKey d "id" (.vstr mid))
      "instructor_repo" (.vstr INSTRUCTOR_REPO)) "instructor_repo_path" (.vstr mid))
      "instructor_email"
  · simp only [h, if_true]
    rw [getVal?_setKey_ne _ _ h2, getVal?_setKey_ne _ _ h1, getVal?_setKey_self]
  · simp only [h, Bool.false_eq_true, if_false]
    rw [getVal?_setKey_ne _ _ h3, getVal?_setKey_ne _ _ h2,
      getVal?_setKey_ne _ _ h1, getVal?_setKey_self]

theorem withComputedFields_hasKey_email (d : List (String × Val)) (mid : String) :
    hasKey (withComputedFields d mid) "instructor_email" = true := by
  unfold withComputedFields
  by_cases h : hasKey (setKey (setKey (setKey d "id" (.vstr mid))
      "instructor_repo" (.vstr INSTRUCTOR_REPO)) "instructor_repo_path" (.vstr mid))
      "instructor_email"
  · simpa [h] using h
  · simp only [h, Bool.false_eq_true, if_false]
    exact hasKey_setKey_self _ _ _

theorem withComputedFields_email_absent (d : List (String × Val)) (mid : String)
    (h : hasKey d "instructor_email" = false) :
    getVal? (withComputedFields d mid) "instructor_email" = some (.vstr "N/A") := by
  unfold withComputedFields
  have h1 : ("instructor_email" : String) ≠ "id" := by decide
  have h2 : ("instructor_email" : String) ≠ "instructor_repo" := by decide
  have h3 : ("instructor_email" : String) ≠ "instructor_repo_path" := by decide
  have hk : hasKey (setKey (setKey (setKey d "id" (.vstr mid))
      "instructor_repo" (.vstr INSTRUCTOR_REPO)) "instructor_repo_path" (.vstr mid))
      "instructor_email" = false := by
    rw [hasKey_setKey_ne _ _ h3, hasKey_setKey_ne _ _ h2, hasKey_setKey_ne _ _ h1]
    exact h
  simp only [hk, if_false, Bool.false_eq_true]
  exact getVal?_setKey_self _ _ _

theorem withComputedFields_email_present (d : List (String × Val)) (mid : String)
    {v : Val} (h : getVal? d "instructor_email" = some v) :
    getVal? (withComputedFields d mid) "instructor_email" = some v := by
  unfold withComputedFields
  have h1 : ("instructor_email" : String) ≠ "id" := by decide
  have h2 : ("instructor_email" : String) ≠ "instructor_repo" := by decide
  have h3 : ("instructor_email" : String) ≠ "instructor_repo_path" := by decide
  have hl : getVal? (setKey (setKey (setKey d "id" (.vstr mid))
      "instructor_repo" (.vstr INSTRUCTOR_REPO)) "instructor_repo_path" (.vstr mid))
      "instructor_email" = some v := by
    rw [getVal?_setKey_ne _ _ h3, getVal?_setKey_ne _ _ h2, getVal?_setKey_ne _ _ h1]
    exact h
  have hk : hasKey (setKey (setKey (setKey d "id" (.vstr mid))
      "instructor_repo" (.vstr INSTRUCTOR_REPO)) "instructor_repo_path" (.vstr mid))
      "instructor_email" = true := by
    simp [hasKey, hl]
  simp only [hk, if_true]
  exact hl

theorem processMemberData_ok_shape {d : List (String × Val)} {mid : String}
    {r : List (String × Val)}
    (h : processMemberData d mid = .ok (some r)) :
    r = withComputedFields d mid ∨
      ∃ s, r = setKey (withComputedFields d mid) "chemcompute_launch" (.vstr s) := by
  unfold processMemberData at h
  dsimp only at h
  split at h
  · exact absurd h (by simp)
  · split at h
    · exact absurd h (by simp)
    · split at h
      · exact absurd h (by simp)
      · simp only [Except.ok.injEq, Option.some.injEq] at h
        exact Or.inl h.symm
      · split at h
        · exact absurd h (by simp)
        · next ru heq =>
          simp only [Except.ok.injEq, Option.some.injEq] at h
          exact Or.inr ⟨chemcomputeLaunch ru, h.symm⟩
        · exact absurd h (by simp)

end ProcessLemmas

section MembersErrorLemmas

open BuildMembers

theorem normalizeMember_isError (d : List (Val × Val)) :
    ∃ e, normalizeMember d = Except.error e := by
  cases h : keyFoldAux ([], []) d with
  | error e =>
    exact ⟨e, by simp [normalizeMember, h, Bind.bind, Except.bind]⟩
  | ok p =>
    refine ⟨"re.error: bad character range \\s-_ at position 8", ?_⟩
    cases p with
    | mk norm extras =>
      simp only [normalizeMember, Bind.bind, Except.bind, h]
      cases hq : pyTruthy (match getVal? norm "id" with
        | some v => if pyTruthy v then v
          else (if getStrField norm "Email" ≠ "" then .vstr (getStrField norm "Email")
                else .vstr (getStrField norm "Name"))
        | none => if getStrField norm "Email" ≠ "" then .vstr (getStrField norm "Email")
                  else .vstr (getStrField norm "Name")) <;>
        simp [slugifyCode, hq]

theorem collectAux_members_eq (files : List (String × Except String (List (Val × Val))))
    (acc : List Member × List String) :
    (collectAux acc files).1 = acc.1 := by
  induction files generalizing acc with
  | nil => rfl
  | cons f t ih =>
    cases f with
    | mk fn res =>
      cases res with
      | error e => simpa [collectAux] using ih _
      | ok raw =>
        obtain ⟨e, he⟩ := normalizeMember_isError raw
        simpa [collectAux, he] using ih _

theorem collectMembers_members_nil
    (files : List (String × Except String (List (Val × Val)))) :
    (collectMembers files).1 = [] := by
  unfold collectMembers
  have h := collectAux_members_eq files ([], [])
  cases hc : collectAux ([], []) files with
  | mk ms notes =>
    rw [hc] at h
    simp only at h
    simp [h, sortMembers, List.insertionSort]

end MembersErrorLemmas

section OrderLemmas

theorem char_eq_of_toNat_eq {a b : Char} (h : a.toNat = b.toNat) : a = b := by
  have hv : a.val = b.val := UInt32.toNat.inj h
  exact Char.eq_of_val_eq hv

theorem lexLt_irrefl (l : List Char) : lexLt l l = false := by
  induction l with
  | nil => rfl
  | cons a t ih => simp [lexLt, ih]

theorem lexLt_trans : ∀ {a b c : List Char},
    lexLt a b = true → lexLt b c = true → lexLt a c = true := by
  intro a
  induction a with
  | nil =>
    intro b c hab hbc
    cases b with
    | nil => simp [lexLt] at hab
    | cons y ys =>
      cases c with
      | nil => simp [lexLt] at hbc
      | cons z zs => simp [lexLt]
  | cons x xs ih =>
    intro b c hab hbc
    cases b with
    | nil => simp [lexLt] at hab
    | cons y ys =>
      cases c with
      | nil => simp [lexLt] at hbc
      | cons z zs =>
        simp only [lexLt] at hab hbc ⊢
        by_cases hxy : x.toNat < y.toNat
        · by_cases hyz : y.toNat < z.toNat
          · have : x.toNat < z.toNat := Nat.lt_trans hxy hyz
            simp [this]
          · simp only [hyz, if_false] at hbc
            by_cases hzy : z.toNat < y.toNat
            · simp [hzy] at hbc
            · have hyz' : y.toNat = z.toNat := Nat.le_antisymm
                (Nat.le_of_not_lt hzy) (Nat.le_of_not_lt hyz)
              have : x.toNat < z.toNat := hyz' ▸ hxy
              simp [this]
        · simp only [hxy, if_false] at hab
          by_cases hyx : y.toNat < x.toNat
          · simp [hyx] at hab
          · have hxy' : x.toNat = y.toNat := Nat.le_antisymm
              (Nat.le_of_not_lt hyx) (Nat.le_of_not_lt hxy)
            by_cases hyz : y.toNat < z.toNat
            · have : x.toNat < z.toNat := hxy' ▸ hyz
              simp [this]
            · simp only [hyz, if_false] at hbc
              by_cases hzy : z.toNat < y.toNat
              · simp [hzy] at hbc
              · have hyz' : y.toNat = z.toNat := Nat.le_antisymm
                  (Nat.le_of_not_lt hzy) (Nat.le_of_not_lt hyz)
                have hxz : x.toNat = z.toNat := hxy'.trans hyz'
                have h1 : ¬ x.toNat < z.toNat := by omega
                have h2 : ¬ z.toNat < x.toNat := by omega
                simp only [h1, h2, if_false]
                simp only [hxy, if_false, hyx] at hab
                simp only [hyz, if_false, hzy] at hbc
                exact ih hab hbc

theorem lexLt_eq_of_not_lt : ∀ {a b : List Char},
    lexLt a b = false → lexLt b a = false → a = b := by
  intro a
  induction a with
  | nil =>
    intro b hab _
    cases b with
    | nil => rfl
    | cons y ys => simp [lexLt] at hab
  | cons x xs ih =>
    intro b hab hba
    cases b with
    | nil => simp [lexLt] at hba
    | cons y ys =>
      simp only [lexLt] at hab hba
      by_cases hxy : x.toNat < y.toNat
      · simp [hxy] at hab
      · by_cases hyx : y.toNat < x.toNat
        · simp [hyx] at hba
        · have hx : x = y := char_eq_of_toNat_eq
            (Nat.le_antisymm (Nat.le_of_not_lt hyx) (Nat.le_of_not_lt hxy))
          simp only [hxy, hyx, if_false] at hab hba
          exact hx ▸ congrArg (x :: ·) (ih hab hba)

theorem lexLe_total (a b : List Char) :
    ((lexLt a b || decide (a = b)) || (lexLt b a || decide (b = a))) = true := by
  by_cases h1 : lexLt a b = true
  · simp [h1]
  · by_cases h2 : lexLt b a = true
    · simp [h2]
    · have := lexLt_eq_of_not_lt (Bool.eq_false_iff.mpr h1) (Bool.eq_false_iff.mpr h2)
      simp [this]

theorem lexLe_trans {a b c : List Char}
    (hab : (lexLt a b || decide (a = b)) = true)
    (hbc : (lexLt b c || decide (b = c)) = true) :
    (lexLt a c || decide (a = c)) = true := by
  simp only [Bool.or_eq_true, decide_eq_true_eq] at hab hbc ⊢
  rcases hab with hab | hab
  · rcases hbc with hbc | hbc
    · exact Or.inl (lexLt_trans hab hbc)
    · exact Or.inl (hbc ▸ hab)
  · rcases hbc with hbc | hbc
    · exact Or.inl (hab ▸ hbc)
    · exact Or.inr (hab.trans hbc)

open BuildMembers in
theorem keyLe_total (a b : List Char × List Char) : (keyLe a b || keyLe b a) = true := by
  unfold keyLe
  by_cases h1 : lexLt a.1 b.1 = true
  · simp [h1]
  · by_cases h2 : lexLt b.1 a.1 = true
    · simp [h2]
    · have he : a.1 = b.1 :=
        lexLt_eq_of_not_lt (Bool.eq_false_iff.mpr h1) (Bool.eq_false_iff.mpr h2)
      by_cases h3 : lexLt a.2 b.2 = true
      · simp [he, h3]
      · by_cases h4 : lexLt b.2 a.2 = true
        · simp [he, h4]
        · have he2 : a.2 = b.2 :=
            lexLt_eq_of_not_lt (Bool.eq_false_iff.mpr h3) (Bool.eq_false_iff.mpr h4)
          simp [he, he2]

open BuildMembers in
theorem keyLe_trans {a b c : List Char × List Char}
    (hab : keyLe a b = true) (hbc : keyLe b c = true) : keyLe a c = true := by
  unfold keyLe at hab hbc ⊢
  simp only [Bool.or_eq_true, Bool.and_eq_true, decide_eq_true_eq] at hab hbc ⊢
  rcases hab with hab | ⟨hab1, hab2⟩
  · rcases hbc with hbc | ⟨hbc1, hbc2⟩
    · exact Or.inl (lexLt_trans hab hbc)
    · exact Or.inl (hbc1 ▸ hab)
  · rcases hbc with hbc | ⟨hbc1, hbc2⟩
    · exact Or.inl (hab1 ▸ hbc)
    · refine Or.inr ⟨hab1.trans hbc1, ?_⟩
      have h := lexLe_trans (a := a.2) (b := b.2) (c := c.2)
        (by simp only [Bool.or_eq_true, decide_eq_true_eq]; exact hab2)
        (by simp only [Bool.or_eq_true, decide_eq_true_eq]; exact hbc2)
      simpa only [Bool.or_eq_true, decide_eq_true_eq] using h

open BuildMembers in
theorem keyLe_refl (a : List Char × List Char) : keyLe a a = true := by
  unfold keyLe
  simp [lexLt_irrefl]

end OrderLemmas

section SortLemmas

open BuildMembers

instance : IsTotal Member relM :=
  ⟨fun a b => (Bool.or_eq_true _ _).mp (keyLe_total (sortKey a) (sortKey b))⟩

instance : IsTrans Member relM :=
  ⟨fun _ _ _ hab hbc => keyLe_trans hab hbc⟩

theorem sortKey_congr {m1 m2 : Member} (h : m1.Name = m2.Name) :
    sortKey m1 = sortKey m2 := by
  unfold sortKey
  rw [h]

theorem sortMembers_sorted (l : List Member) :
    (sortMembers l).Pairwise relM :=
  List.sorted_insertionSort relM l

theorem sortMembers_perm (l : List Member) : (sortMembers l).Perm l :=
  List.perm_insertionSort relM l

theorem sortMembers_filter_name (l : List Member) (n : String) :
    (sortMembers l).filter (fun m => m.Name == n) =
      l.filter (fun m => m.Name == n) := by
  have hall : ∀ m ∈ l.filter (fun m => m.Name == n), m.Name = n := by
    intro m hm
    have := (List.mem_filter.mp hm).2
    simpa [beq_iff_eq] using this
  have hpair : (l.filter (fun m => m.Name == n)).Pairwise relM := by
    refine List.pairwise_of_forall_mem_list ?_
    intro a ha b hb
    have hab : a.Name = b.Name := (hall a ha).trans (hall b hb).symm
    unfold relM
    rw [sortKey_congr hab]
    exact keyLe_refl _
  have hsub : (l.filter (fun m => m.Name == n)).Sublist (sortMembers l) :=
    List.sublist_insertionSort hpair (List.filter_sublist l)
  have hcfilter :
      (l.filter (fun m => m.Name == n)).filter (fun m => m.Name == n) =
        l.filter (fun m => m.Name == n) :=
    List.filter_eq_self.mpr (fun a ha => (List.mem_filter.mp ha).2)
  have hsub2 : (l.filter (fun m => m.Name == n)).Sublist
      ((sortMembers l).filter (fun m => m.Name == n)) :=
    hcfilter ▸ hsub.filter (fun m => m.Name == n)
  have hperm : ((sortMembers l).filter (fun m => m.Name == n)).Perm
      (l.filter (fun m => m.Name == n)) :=
    (sortMembers_perm l).filter (fun m => m.Name == n)
  exact (hsub2.eq_of_length hperm.length_eq.symm).symm

end SortLemmas

section SlugLemmas

open BuildMembers

theorem ws_toNat {c : Char} (h : c.isWhitespace = true) :
    c.toNat = 32 ∨ c.toNat = 9 ∨ c.toNat = 13 ∨ c.toNat = 10 := by
  simp only [Char.isWhitespace, Bool.or_eq_true, decide_eq_true_eq] at h
  rcases h with ((h | h) | h) | h <;> subst h <;> simp

theorem slugOutChar_ranges {c : Char} (h : slugOutChar c = true) :
    (97 ≤ c.toNat ∧ c.toNat ≤ 122) ∨ (48 ≤ c.toNat ∧ c.toNat ≤ 57) ∨ c.toNat = 45 := by
  simp only [slugOutChar, Bool.or_eq_true, Bool.and_eq_true, decide_eq_true_eq,
    beq_iff_eq] at h
  rcases h with (h | h) | h
  · exact Or.inl h
  · exact Or.inr (Or.inl h)
  · subst h; exact Or.inr (Or.inr rfl)

theorem slugOutChar_not_ws {c : Char} (h : slugOutChar c = true) :
    c.isWhitespace = false := by
  by_contra hf
  have hw := ws_toNat (Bool.eq_true_of_ne_false hf)
  have hr := slugOutChar_ranges h
  omega

theorem slugOutChar_not_underscore {c : Char} (h : slugOutChar c = true) :
    (c == '_') = false := by
  by_contra hf
  have : c = '_' := by simpa [beq_iff_eq] using Bool.eq_true_of_ne_false hf
  subst this
  have hr := slugOutChar_ranges h
  simp at hr

theorem slugOutChar_slugChar {c : Char} (h : slugOutChar c = true) :
    slugChar c = true := by
  simp only [slugChar, slugOutChar, Bool.or_eq_true] at h ⊢
  rcases h with (h | h) | h
  · exact Or.inl (Or.inl (Or.inl (Or.inl h)))
  · exact Or.inl (Or.inl (Or.inl (Or.inr h)))
  · exact Or.inl (Or.inr h)

theorem toLower_id_of_slugOutChar {c : Char} (h : slugOutChar c = true) :
    c.toLower = c := by
  have hr := slugOutChar_ranges h
  have hcond : ¬(c.toNat ≥ 65 ∧ c.toNat ≤ 90) := by omega
  simp [Char.toLower, hcond]

theorem dropWhile_eq_self_of_all {p : Char → Bool} {l : List Char}
    (h : ∀ c ∈ l, p c = false) : l.dropWhile p = l := by
  cases l with
  | nil => rfl
  | cons c t => simp [List.dropWhile, h c (List.mem_cons_self c t)]

theorem pyStripChars_id {l : List Char} (h : ∀ c ∈ l, c.isWhitespace = false) :
    pyStripChars l = l := by
  unfold pyStripChars
  rw [dropWhile_eq_self_of_all h]
  rw [dropWhile_eq_self_of_all (fun c hc => h c (List.mem_reverse.mp hc))]
  exact List.reverse_reverse l

theorem map_toLower_id {l : List Char} (h : ∀ c ∈ l, slugOutChar c = true) :
    l.map Char.toLower = l := by
  induction l with
  | nil => rfl
  | cons c t ih =>
    rw [List.map_cons, toLower_id_of_slugOutChar (h c (List.mem_cons_self c t)),
      ih (fun x hx => h x (List.mem_cons_of_mem c hx))]

theorem filter_slugChar_id {l : List Char} (h : ∀ c ∈ l, slugOutChar c = true) :
    l.filter slugChar = l :=
  List.filter_eq_self.mpr (fun c hc => slugOutChar_slugChar (h c hc))

theorem collapseWsRuns_id : ∀ {l : List Char},
    (∀ c ∈ l, (c.isWhitespace || c == '_') = false) → collapseWsRuns l = l := by
  intro l
  induction l with
  | nil => intro _; rfl
  | cons c t ih =>
    intro h
    have hc := h c (List.mem_cons_self c t)
    cases t with
    | nil => simp [collapseWsRuns, hc]
    | cons d t' =>
      have ht : collapseWsRuns (d :: t') = d :: t' :=
        ih (fun x hx => h x (List.mem_cons_of_mem c hx))
      simp [collapseWsRuns, hc, ht]

theorem collapseDashRuns_id : ∀ {l : List Char}, NoDD l → collapseDashRuns l = l := by
  intro l
  induction l with
  | nil => intro _; rfl
  | cons c t ih =>
    intro h
    cases t with
    | nil => rfl
    | cons d t' =>
      have hcd : ¬(c = '-' ∧ d = '-') := (List.chain'_cons.mp h).1
      have ht : collapseDashRuns (d :: t') = d :: t' := ih (List.chain'_cons.mp h).2
      have hco : (c == '-' && d == '-') = false := by
        rcases Decidable.em (c = '-') with hc | hc
        · rcases Decidable.em (d = '-') with hd | hd
          · exact absurd ⟨hc, hd⟩ hcd
          · simp [hd]
        · simp [hc]
      simp [collapseDashRuns, hco, ht]

theorem dropWhile_dash_id {l : List Char} (h : l.head? ≠ some '-') :
    l.dropWhile (· == '-') = l := by
  cases l with
  | nil => rfl
  | cons c t =>
    have : (c == '-') = false := by
      simp only [List.head?] at h
      simp [beq_iff_eq]
      intro he
      exact h (by rw [he])
    simp [List.dropWhile, this]

theorem dropTrailingDash_id : ∀ {l : List Char},
    l.getLast? ≠ some '-' → dropTrailingDash l = l := by
  intro l
  induction l with
  | nil => intro _; rfl
  | cons c t ih =>
    intro h
    cases t with
    | nil =>
      have hc : ¬ c = '-' := by
        simpa using h
      simp [dropTrailingDash, hc]
    | cons d t' =>
      have ht : dropTrailingDash (d :: t') = d :: t' := by
        apply ih
        rw [List.getLast?_cons_cons] at h
        exact h
      have heq : dropTrailingDash (c :: d :: t') =
          (if (dropTrailingDash (d :: t')).isEmpty && c == '-' then []
           else c :: dropTrailingDash (d :: t')) := rfl
      rw [heq, ht]
      simp

end SlugLemmas

section SlugOutLemmas

open BuildMembers

theorem collapseWsRuns_chars : ∀ {l : List Char}, ∀ c ∈ collapseWsRuns l,
    (c ∈ l ∧ (c.isWhitespace || c == '_') = false) ∨ c = '-' := by
  intro l
  induction l with
  | nil => intro c hc; simp [collapseWsRuns] at hc
  | cons a t ih =>
    intro c hc
    cases t with
    | nil =>
      by_cases ha : (a.isWhitespace || a == '_') = true
      · simp [collapseWsRuns, ha] at hc
        exact Or.inr hc
      · have ha' : (a.isWhitespace || a == '_') = false := Bool.eq_false_iff.mpr ha
        simp [collapseWsRuns, ha'] at hc
        exact Or.inl ⟨by simp [hc], hc ▸ ha'⟩
    | cons d t' =>
      by_cases ha : (a.isWhitespace || a == '_') = true
      · by_cases hd : (d.isWhitespace || d == '_') = true
        · have : collapseWsRuns (a :: d :: t') = collapseWsRuns (d :: t') := by
            simp [collapseWsRuns, ha, hd]
          rw [this] at hc
          rcases ih c hc with ⟨hm, hw⟩ | he
          · exact Or.inl ⟨List.mem_cons_of_mem a hm, hw⟩
          · exact Or.inr he
        · have : collapseWsRuns (a :: d :: t') = '-' :: collapseWsRuns (d :: t') := by
            simp [collapseWsRuns, ha, Bool.eq_false_iff.mpr hd]
          rw [this] at hc
          rcases List.mem_cons.mp hc with he | hm
          · exact Or.inr he
          · rcases ih c hm with ⟨hm2, hw⟩ | he
            · exact Or.inl ⟨List.mem_cons_of_mem a hm2, hw⟩
            · exact Or.inr he
      · have ha' : (a.isWhitespace || a == '_') = false := Bool.eq_false_iff.mpr ha
        have : collapseWsRuns (a :: d :: t') = a :: collapseWsRuns (d :: t') := by
          simp [collapseWsRuns, ha']
        rw [this] at hc
        rcases List.mem_cons.mp hc with he | hm
        · exact Or.inl ⟨by simp [he], he ▸ ha'⟩
        · rcases ih c hm with ⟨hm2, hw⟩ | he
          · exact Or.inl ⟨List.mem_cons_of_mem a hm2, hw⟩
          · exact Or.inr he

theorem collapseDashRuns_chars : ∀ {l : List Char}, ∀ c ∈ collapseDashRuns l, c ∈ l := by
  intro l
  induction l with
  | nil => intro c hc; simp [collapseDashRuns] at hc
  | cons a t ih =>
    intro c hc
    cases t with
    | nil => simpa [collapseDashRuns] using hc
    | cons d t' =>
      by_cases had : (a == '-' && d == '-') = true
      · have : collapseDashRuns (a :: d :: t') = collapseDashRuns (d :: t') := by
          simp only [collapseDashRuns, had, if_true]
        rw [this] at hc
        exact List.mem_cons_of_mem a (ih c hc)
      · have : collapseDashRuns (a :: d :: t') = a :: collapseDashRuns (d :: t') := by
          simp only [collapseDashRuns, Bool.eq_false_iff.mpr had, Bool.false_eq_true, if_false]
        rw [this] at hc
        rcases List.mem_cons.mp hc with he | hm
        · exact he ▸ List.mem_cons_self a _
        · exact List.mem_cons_of_mem a (ih c hm)

theorem collapseDashRuns_head? : ∀ (l : List Char),
    (collapseDashRuns l).head? = l.head? := by
  intro l
  induction l with
  | nil => rfl
  | cons a t ih =>
    cases t with
    | nil => rfl
    | cons d t' =>
      by_cases had : (a == '-' && d == '-') = true
      · have ha : a = '-' := by
          have := (Bool.and_eq_true _ _).mp had
          simpa [beq_iff_eq] using this.1
        have hd : d = '-' := by
          have := (Bool.and_eq_true _ _).mp had
          simpa [beq_iff_eq] using this.2
        have : collapseDashRuns (a :: d :: t') = collapseDashRuns (d :: t') := by
          simp only [collapseDashRuns, had, if_true]
        rw [this, ih]
        simp [ha, hd]
      · have : collapseDashRuns (a :: d :: t') = a :: collapseDashRuns (d :: t') := by
          simp only [collapseDashRuns, Bool.eq_false_iff.mpr had, Bool.false_eq_true, if_false]
        rw [this]
        rfl

theorem collapseDashRuns_noDD : ∀ (l : List Char), NoDD (collapseDashRuns l) := by
  intro l
  induction l with
  | nil => exact List.chain'_nil
  | cons a t ih =>
    cases t with
    | nil => exact List.chain'_singleton a
    | cons d t' =>
      by_cases had : (a == '-' && d == '-') = true
      · have : collapseDashRuns (a :: d :: t') = collapseDashRuns (d :: t') := by
          simp only [collapseDashRuns, had, if_true]
        rw [this]
        exact ih
      · have heq : collapseDashRuns (a :: d :: t') = a :: collapseDashRuns (d :: t') := by
          simp only [collapseDashRuns, Bool.eq_false_iff.mpr had, Bool.false_eq_true, if_false]
        rw [heq]
        unfold NoDD
        rw [List.chain'_cons']
        refine ⟨?_, ih⟩
        intro b hb
        rw [collapseDashRuns_head? (d :: t')] at hb
        simp only [List.head?, Option.mem_def, Option.some.injEq] at hb
        subst hb
        intro hpair
        exact absurd (by simp [hpair.1, hpair.2] : (a == '-' && d == '-') = true) had

theorem noDD_dropWhile {p : Char → Bool} : ∀ {l : List Char}, NoDD l →
    NoDD (l.dropWhile p) := by
  intro l
  induction l with
  | nil => intro _; exact List.chain'_nil
  | cons a t ih =>
    intro h
    by_cases ha : p a = true
    · rw [List.dropWhile_cons_of_pos ha]
      exact ih (List.Chain'.tail h)
    · rw [List.dropWhile_cons_of_neg (by simpa using ha)]
      exact h

theorem head?_dropWhile_false {p : Char → Bool} : ∀ {l : List Char} {c : Char},
    (l.dropWhile p).head? = some c → p c = false := by
  intro l
  induction l with
  | nil => intro c hc; simp [List.dropWhile] at hc
  | cons a t ih =>
    intro c hc
    by_cases ha : p a = true
    · rw [List.dropWhile_cons_of_pos ha] at hc
      exact ih hc
    · rw [List.dropWhile_cons_of_neg (by simpa using ha)] at hc
      simp only [List.head?, Option.some.injEq] at hc
      exact hc ▸ Bool.eq_false_iff.mpr ha

theorem dropTrailingDash_append : ∀ (l : List Char),
    ∃ t, l = dropTrailingDash l ++ t := by
  intro l
  induction l with
  | nil => exact ⟨[], rfl⟩
  | cons c cs ih =>
    obtain ⟨t, ht⟩ := ih
    by_cases hb : ((dropTrailingDash cs).isEmpty && c == '-') = true
    · have : dropTrailingDash (c :: cs) = [] := by
        have heq : dropTrailingDash (c :: cs) =
            (if (dropTrailingDash cs).isEmpty && c == '-' then []
             else c :: dropTrailingDash cs) := rfl
        rw [heq, if_pos hb]
      exact ⟨c :: cs, by rw [this]; rfl⟩
    · have : dropTrailingDash (c :: cs) = c :: dropTrailingDash cs := by
        have heq : dropTrailingDash (c :: cs) =
            (if (dropTrailingDash cs).isEmpty && c == '-' then []
             else c :: dropTrailingDash cs) := rfl
        rw [heq, if_neg (by simpa using hb)]
      exact ⟨t, by rw [this, List.cons_append, ← ht]⟩

theorem dropTrailingDash_getLast : ∀ (l : List Char),
    (dropTrailingDash l).getLast? ≠ some '-' := by
  intro l
  induction l with
  | nil => simp [dropTrailingDash]
  | cons c cs ih =>
    by_cases hb : ((dropTrailingDash cs).isEmpty && c == '-') = true
    · have : dropTrailingDash (c :: cs) = [] := by
        have heq : dropTrailingDash (c :: cs) =
            (if (dropTrailingDash cs).isEmpty && c == '-' then []
             else c :: dropTrailingDash cs) := rfl
        rw [heq, if_pos hb]
      rw [this]
      simp
    · have heq2 : dropTrailingDash (c :: cs) = c :: dropTrailingDash cs := by
        have heq : dropTrailingDash (c :: cs) =
            (if (dropTrailingDash cs).isEmpty && c == '-' then []
             else c :: dropTrailingDash cs) := rfl
        rw [heq, if_neg (by simpa using hb)]
      rw [heq2]
      cases hr : dropTrailingDash cs with
      | nil =>
        have hc : ¬ c = '-' := by
          intro he
          exact absurd (by simp [hr, he]) hb
        simpa using hc
      | cons r rs =>
        rw [List.getLast?_cons_cons, ← hr]
        exact ih

end SlugOutLemmas

section SlugAssembly

open BuildMembers

theorem slugChar_to_slugOut {c : Char} (h : slugChar c = true)
    (hw : (c.isWhitespace || c == '_') = false) : slugOutChar c = true := by
  simp only [slugChar, Bool.or_eq_true] at h
  simp only [Bool.or_eq_false_iff] at hw
  simp only [slugOutChar, Bool.or_eq_true]
  rcases h with (((h | h) | h) | h) | h
  · exact Or.inl (Or.inl h)
  · exact Or.inl (Or.inr h)
  · rw [h] at hw; exact absurd hw.1 (by simp)
  · exact Or.inr h
  · rw [h] at hw; exact absurd hw.2 (by simp)

theorem slugifySpec_member_or_good (x : Option String) :
    slugifySpec x = "member" ∨
      (GoodSlug (slugifySpec x).data ∧ (slugifySpec x).data ≠ []) := by
  unfold slugifySpec
  set t2 := ((pyStripChars (x.getD "").data).map Char.toLower).filter slugChar with ht2
  set t3 := collapseWsRuns t2 with ht3
  set t4 := collapseDashRuns t3 with ht4
  set t5 := dropTrailingDash (t4.dropWhile (· == '-')) with ht5
  by_cases he : t5.isEmpty
  · left; simp [he]
  · right
    have hne : t5 ≠ [] := by simpa [List.isEmpty_iff] using he
    obtain ⟨trest, hsplit⟩ := dropTrailingDash_append (t4.dropWhile (· == '-'))
    have ht5sub : ∀ c ∈ t5, c ∈ t4.dropWhile (· == '-') := by
      intro c hc
      rw [hsplit]
      exact List.mem_append_left _ hc
    have ht4sub : ∀ c ∈ t5, c ∈ t4 := fun c hc =>
      (List.dropWhile_sublist (· == '-')).subset (ht5sub c hc)
    have hchars : ∀ c ∈ t5, slugOutChar c = true := by
      intro c hc
      have hc4 := ht4sub c hc
      have hc3 : c ∈ t3 := collapseDashRuns_chars c hc4
      rcases collapseWsRuns_chars c hc3 with ⟨hc2, hw⟩ | hd
      · have hsc : slugChar c = true := List.of_mem_filter hc2
        exact slugChar_to_slugOut hsc hw
      · subst hd; decide
    have hnodd4 : NoDD t4 := collapseDashRuns_noDD t3
    have hnodddw : NoDD (t4.dropWhile (· == '-')) := noDD_dropWhile hnodd4
    have hnodd5 : NoDD t5 := by
      rw [hsplit] at hnodddw
      exact List.Chain'.left_of_append hnodddw
    have hhead : t5.head? ≠ some '-' := by
      intro hh
      have hdw : (t4.dropWhile (· == '-')).head? = some '-' := by
        rw [hsplit, List.head?_append, hh]
        rfl
      have := head?_dropWhile_false hdw
      simp at this
    have hlast : t5.getLast? ≠ some '-' := dropTrailingDash_getLast _
    have hdata : (if t5.isEmpty then ("member" : String) else ⟨t5⟩).data = t5 := by
      simp [he]
    refine ⟨?_, ?_⟩
    · rw [hdata]
      exact ⟨hchars, hnodd5, hhead, hlast⟩
    · rw [hdata]
      exact hne

theorem slugifySpec_of_good {s : String} (hg : GoodSlug s.data) (hne : s.data ≠ []) :
    slugifySpec (some s) = s := by
  obtain ⟨hchars, hnodd, hhead, hlast⟩ := hg
  unfold slugifySpec
  simp only [Option.getD_some]
  have h0 : pyStripChars s.data = s.data :=
    pyStripChars_id (fun c hc => slugOutChar_not_ws (hchars c hc))
  rw [h0]
  rw [map_toLower_id hchars]
  rw [filter_slugChar_id hchars]
  have hwsall : ∀ c ∈ s.data, (c.isWhitespace || c == '_') = false := by
    intro c hc
    rw [Bool.or_eq_false_iff]
    exact ⟨slugOutChar_not_ws (hchars c hc), slugOutChar_not_underscore (hchars c hc)⟩
  rw [collapseWsRuns_id hwsall]
  rw [collapseDashRuns_id hnodd]
  rw [dropWhile_dash_id hhead]
  rw [dropTrailingDash_id hlast]
  have : s.data.isEmpty = false := by
    cases hd : s.data with
    | nil => exact absurd hd hne
    | cons a t => rfl
  simp only [this, Bool.false_eq_true, if_false]

theorem slugifySpec_member : slugifySpec (some "member") = "member" := by decide

theorem slugifySpec_idem (x : Option String) :
    slugifySpec (some (slugifySpec x)) = slugifySpec x := by
  rcases slugifySpec_member_or_good x with h | ⟨hg, hne⟩
  · rw [h]; exact slugifySpec_member
  · exact slugifySpec_of_good hg hne

end SlugAssembly

section StemLemmas

open BuildSite

theorem data_ne_nil_of_ne_empty {b : String} (hb : b ≠ "") : b.data ≠ [] := by
  intro h
  apply hb
  cases b with
  | mk d =>
    simp only at h
    rw [h]

theorem stemCore_yml {b : String} (hb : b ≠ "") : stemCore (b ++ ".yml") = b := by
  have hbd : b.data ≠ [] := data_ne_nil_of_ne_empty hb
  have hlen : 0 < b.data.length := List.length_pos.mpr hbd
  unfold stemCore
  have hdata : (b ++ ".yml").data = b.data ++ ['.', 'y', 'm', 'l'] := by
    rw [String.data_append]
  rw [hdata]
  dsimp only
  have hrev : (b.data ++ ['.', 'y', 'm', 'l']).reverse =
      'l' :: 'm' :: 'y' :: '.' :: b.data.reverse := by
    rw [List.reverse_append]
    rfl
  rw [hrev]
  have hfind : List.findIdx? (fun c => c == '.')
      ('l' :: 'm' :: 'y' :: '.' :: b.data.reverse) = some 3 := by
    rw [List.findIdx?_cons]
    rw [if_neg (by decide)]
    rw [List.findIdx?_cons]
    rw [if_neg (by decide)]
    rw [List.findIdx?_cons]
    rw [if_neg (by decide)]
    rw [List.findIdx?_cons]
    rw [if_pos (by decide)]
  rw [hfind]
  dsimp only
  have hidx : (b.data ++ ['.', 'y', 'm', 'l']).length - 1 - 3 = b.data.length := by
    simp only [List.length_append, List.length_cons, List.length_nil]
    omega
  rw [hidx]
  rw [if_pos (by
    simp only [Bool.and_eq_true, decide_eq_true_eq, List.length_append,
      List.length_cons, List.length_nil]
    omega)]
  rw [List.take_left]

end StemLemmas

section SiteRunLemmas

open BuildSite

theorem processMemberData_id {d : List (String × Val)} {mid : String}
    {r : List (String × Val)}
    (h : processMemberData d mid = .ok (some r)) :
    getVal? r "id" = some (.vstr mid) := by
  rcases processMemberData_ok_shape h with hr | ⟨s, hr⟩
  · rw [hr]
    exact withComputedFields_id d mid
  · rw [hr]
    rw [getVal?_setKey_ne _ _ (by decide : ("id" : String) ≠ "chemcompute_launch")]
    exact withComputedFields_id d mid

theorem bmj_fold_shape :
    ∀ (files : List (String × List (String × Val)))
      (acc ms : List (List (String × Val))),
    (files.foldlM
      (fun (acc : List (List (String × Val))) (f : String × List (String × Val)) => do
        match ← processMemberData f.2 (getMemberIdFromFilename f.1) with
        | some r => pure (acc ++ [r])
        | none => pure acc)
      acc) = .ok ms →
    ∃ tail, ms = acc ++ tail ∧
      (tail.map (fun r => getVal? r "id")).Sublist
        (files.map (fun f => some (Val.vstr (getMemberIdFromFilename f.1)))) ∧
      (∀ r ∈ tail, ∃ f ∈ files,
        processMemberData f.2 (getMemberIdFromFilename f.1) = .ok (some r)) ∧
      (∀ f ∈ files, ∀ r,
        processMemberData f.2 (getMemberIdFromFilename f.1) = .ok (some r) → r ∈ ms) := by
  intro files
  induction files with
  | nil =>
    intro acc ms h
    simp only [List.foldlM_nil] at h
    cases h
    exact ⟨[], by simp, by simp, by simp, by simp⟩
  | cons f fs ih =>
    intro acc ms h
    rw [List.foldlM_cons] at h
    cases hp : processMemberData f.2 (getMemberIdFromFilename f.1) with
    | error e =>
      rw [hp] at h
      exact absurd h (by simp [Bind.bind, Except.bind])
    | ok o =>
      rw [hp] at h
      cases o with
      | none =>
        have h2 : (fs.foldlM (fun (acc : List (List (String × Val))) (f : String × List (String × Val)) => do
        match ← processMemberData f.2 (getMemberIdFromFilename f.1) with
        | some r => pure (acc ++ [r])
        | none => pure acc) acc) = Except.ok ms := by
          simpa [Bind.bind, Except.bind] using h
        obtain ⟨tail, hms, hsub, hmem, hall⟩ := ih acc ms h2
        refine ⟨tail, hms, ?_, ?_, ?_⟩
        · rw [List.map_cons]
          exact hsub.cons _
        · intro r hr
          obtain ⟨g, hg, hgp⟩ := hmem r hr
          exact ⟨g, List.mem_cons_of_mem f hg, hgp⟩
        · intro g hgmem r hgp
          rcases List.mem_cons.mp hgmem with he | hm
          · rw [← he] at hp
            rw [hgp] at hp
            exact absurd hp (by simp)
          · exact hall g hm r hgp
      | some r =>
        have h2 : (fs.foldlM (fun (acc : List (List (String × Val))) (f : String × List (String × Val)) => do
        match ← processMemberData f.2 (getMemberIdFromFilename f.1) with
        | some r => pure (acc ++ [r])
        | none => pure acc) (acc ++ [r])) = Except.ok ms := by
          simpa [Bind.bind, Except.bind] using h
        obtain ⟨tail, hms, hsub, hmem, hall⟩ := ih (acc ++ [r]) ms h2
        refine ⟨r :: tail, by simpa using hms, ?_, ?_, ?_⟩
        · rw [List.map_cons, List.map_cons]
          rw [processMemberData_id hp]
          exact hsub.cons₂ _
        · intro x hx
          rcases List.mem_cons.mp hx with he | hm
          · exact ⟨f, List.mem_cons_self f fs, he ▸ hp⟩
          · obtain ⟨g, hg, hgp⟩ := hmem x hm
            exact ⟨g, List.mem_cons_of_mem f hg, hgp⟩
        · intro g hgmem x hgp
          rcases List.mem_cons.mp hgmem with he | hm
          · rw [← he] at hp
            rw [hgp] at hp
            have hx : x = r := by
              simpa using hp
            rw [hms, hx]
            exact List.mem_append_left _ (List.mem_append_right _ (by simp))
          · exact hall g hm x hgp

theorem sortByTitle_perm {ms out : List (List (String × Val))}
    (h : sortByTitle ms = .ok out) : out.Perm ms := by
  unfold sortByTitle at h
  split at h
  · split at h
    · simp only [Except.ok.injEq] at h
      exact h ▸ List.perm_insertionSort relTitle ms
    · exact absurd h (by simp)
  · exact absurd h (by simp)

theorem main_output_bmj {mde tde : Bool} {dir : String}
    {files : List (String × List (String × Val))}
    {out : List (List (String × Val))}
    (h : (BuildSite.main mde tde dir files).output = some out) :
    buildMembersJson files = .ok out := by
  unfold BuildSite.main at h
  split at h
  · exact absurd h (by simp)
  · split at h
    · exact absurd h (by simp)
    · split at h
      · exact absurd h (by simp)
      · split at h
        · exact absurd h (by simp)
        · split at h
          · exact absurd h (by simp)
          · split at h
            · exact absurd h (by simp)
            · next members hbmj =>
              split at h
              · simp only [Option.some.injEq] at h
                exact h ▸ hbmj
              · simp only [Option.some.injEq] at h
                exact h ▸ hbmj

end SiteRunLemmas

section ValidateFoldLemmas

open BuildSite

theorem validate_fold_false_acc :
    ∀ (files : List (String × List (String × Val))) (acc : Bool × List String),
    acc.1 = false →
    ∀ res, (files.foldlM
      (fun (acc : Bool × List String) (f : String × List (String × Val)) => do
        let (ok, msgs) ← validateMemberData f.2 f.1
        pure (acc.1 && ok, acc.2 ++ msgs))
      acc) = .ok res → res.1 = false := by
  intro files
  induction files with
  | nil =>
    intro acc ha res h
    simp only [List.foldlM_nil] at h
    cases h
    exact ha
  | cons f fs ih =>
    intro acc ha res h
    rw [List.foldlM_cons] at h
    cases hv : validateMemberData f.2 f.1 with
    | error e =>
      rw [hv] at h
      exact absurd h (by simp [Bind.bind, Except.bind])
    | ok p =>
      rw [hv] at h
      have h2 : (fs.foldlM
          (fun (acc : Bool × List String) (f : String × List (String × Val)) => do
            let (ok, msgs) ← validateMemberData f.2 f.1
            pure (acc.1 && ok, acc.2 ++ msgs))
          (acc.1 && p.1, acc.2 ++ p.2)) = Except.ok res := by
        simpa [Bind.bind, Except.bind] using h
      exact ih _ (by simp [ha]) res h2

theorem validate_fold_false_mem :
    ∀ (files : List (String × List (String × Val))) (acc : Bool × List String)
      {fn : String} {d : List (String × Val)} {msgs : List String},
    (fn, d) ∈ files → validateMemberData d fn = .ok (false, msgs) →
    ∀ res, (files.foldlM
      (fun (acc : Bool × List String) (f : String × List (String × Val)) => do
        let (ok, msgs) ← validateMemberData f.2 f.1
        pure (acc.1 && ok, acc.2 ++ msgs))
      acc) = .ok res → res.1 = false := by
  intro files
  induction files with
  | nil =>
    intro acc fn d msgs hm
    simp at hm
  | cons f fs ih =>
    intro acc fn d msgs hm hv res h
    rw [List.foldlM_cons] at h
    rcases List.mem_cons.mp hm with he | hm2
    · subst he
      simp only at h
      rw [hv] at h
      have h2 : (fs.foldlM
          (fun (acc : Bool × List String) (f : String × List (String × Val)) => do
            let (ok, msgs) ← validateMemberData f.2 f.1
            pure (acc.1 && ok, acc.2 ++ msgs))
          (acc.1 && false, acc.2 ++ msgs)) = Except.ok res := by
        simpa [Bind.bind, Except.bind] using h
      exact validate_fold_false_acc fs _ (by simp) res h2
    · cases hv2 : validateMemberData f.2 f.1 with
      | error e =>
        rw [hv2] at h
        exact absurd h (by simp [Bind.bind, Except.bind])
      | ok p =>
        rw [hv2] at h
        have h2 : (fs.foldlM
            (fun (acc : Bool × List String) (f : String × List (String × Val)) => do
              let (ok, msgs) ← validateMemberData f.2 f.1
              pure (acc.1 && ok, acc.2 ++ msgs))
            (acc.1 && p.1, acc.2 ++ p.2)) = Except.ok res := by
          simpa [Bind.bind, Except.bind] using h
        exact ih _ hm2 hv res h2

theorem main_output_none_of_invalid {mde tde : Bool} {dir : String}
    {files : List (String × List (String × Val))}
    {fn : String} {d : List (String × Val)} {msgs : List String}
    (hm : (fn, d) ∈ files)
    (hv : validateMemberData d fn = .ok (false, msgs)) :
    (BuildSite.main mde tde dir files).output = none := by
  unfold BuildSite.main
  split
  · rfl
  · split
    · rfl
    · split
      · rfl
      · split
        · rfl
        · next valid vmsgs heq =>
          have hfalse : valid = false := by
            have := validate_fold_false_mem files (true, []) hm hv (valid, vmsgs) heq
            simpa using this
          rw [hfalse]
          simp

end ValidateFoldLemmas

section MaterialLemmas

open BuildSite

theorem firstMissingField_none {md : List (String × Val)}
    (h1 : hasKey md "title" = true) (h2 : hasKey md "description" = true)
    (h3 : hasKey md "type" = true) (h4 : hasKey md "duration" = true) :
    firstMissingField (.vdict md) requiredMaterialFields = .ok none := by
  simp [firstMissingField, requiredMaterialFields, containsStr, h1, h2, h3, h4,
    Bind.bind, Except.bind]

theorem checkMaterial_url_check {fn : String} {i : Nat} {md : List (String × Val)}
    {u : String}
    (h1 : hasKey md "title" = true) (h2 : hasKey md "description" = true)
    (h3 : hasKey md "type" = true) (h4 : hasKey md "duration" = true)
    (hg : getVal? md "github_url" = some (.vstr u))
    (hc : hasKey md "colab_url" = false) :
    checkMaterial fn i (.vdict md) =
      (if "http".data.isPrefixOf u.data then .ok (true, [])
       else .ok (false, ["Error: " ++ fn ++ " material " ++ toString (i + 1) ++
         " github_url must be a valid HTTP/HTTPS URL"])) := by
  have hgk : hasKey md "github_url" = true := by simp [hasKey, hg]
  unfold checkMaterial
  rw [firstMissingField_none h1 h2 h3 h4]
  simp only [Bind.bind, Except.bind, containsStr, hgk, hc, Bool.not_true,
    Bool.not_false, Bool.false_and, Bool.false_eq_true, if_false, hg]
  by_cases hp : "http".data.isPrefixOf u.data
  · simp [hp]
  · simp only [Bool.not_eq_true] at hp
    simp only [hp, Bool.false_eq_true, if_false]
    have hlit : (" " : String) ++ ("github_url" ++ " must be a valid HTTP/HTTPS URL") =
        " github_url must be a valid HTTP/HTTPS URL" := rfl
    rw [String.append_assoc ("Error: " ++ fn ++ " material " ++ toString (i + 1) ++ " ")
      "github_url" " must be a valid HTTP/HTTPS URL"]
    rw [String.append_assoc ("Error: " ++ fn ++ " material " ++ toString (i + 1)) " "
      ("github_url" ++ " must be a valid HTTP/HTTPS URL")]
    rw [hlit]
    simp

theorem checkMaterial_no_url {fn : String} {i : Nat} {md : List (String × Val)}
    (h1 : hasKey md "title" = true) (h2 : hasKey md "description" = true)
    (h3 : hasKey md "type" = true) (h4 : hasKey md "duration" = true)
    (hg : hasKey md "github_url" = false)
    (hc : hasKey md "colab_url" = false) :
    checkMaterial fn i (.vdict md) =
      .ok (false, ["Error: " ++ fn ++ " material " ++ toString (i + 1) ++
        " must have either github_url or colab_url"]) := by
  unfold checkMaterial
  rw [firstMissingField_none h1 h2 h3 h4]
  simp [Bind.bind, Except.bind, containsStr, hg, hc]

end MaterialLemmas

/-- C2: the assembler sorts accepted records by the last
whitespace-delimited token of `name` lowercased, tie-broken by the full
`name` lowercased (`relM` is exactly that key comparison, embedded from
`sort_key`), the sort is a permutation of its input, it is stable (records
with the same full name keep their input-encounter order), and "Bob
Zephyr"/"Ann Zephyr" sort as Ann then Bob. -/
theorem claim_c2_sort_stable :
    BuildMembers.sortMembers [bobZephyr, annZephyr] = [annZephyr, bobZephyr] ∧
    (∀ l, (BuildMembers.sortMembers l).Pairwise BuildMembers.relM) ∧
    (∀ l n, (BuildMembers.sortMembers l).filter (fun m => m.Name == n) =
      l.filter (fun m => m.Name == n)) ∧
    (∀ l, (BuildMembers.sortMembers l).Perm l) := by
  refine ⟨?_, sortMembers_sorted, sortMembers_filter_name, sortMembers_perm⟩
  rfl

/-- C3: slugify's character-class regex `[^a-z0-9\s-_]` is malformed (the
range `\s-_` is rejected by CPython's `re`), so `_slugify` raises
`re.error` on every input instead of computing a slug; the slugification
the spec describes (`slugifySpec`, modelled from the spec) is idempotent
and maps both `""` and `None` to the fallback literal `"member"`. -/
theorem claim_c3_slugify_idempotent :
    (∀ t, BuildMembers.slugifyCode t =
      Except.error "re.error: bad character range \\s-_ at position 8") ∧
    (∀ x, BuildMembers.slugifySpec (some (BuildMembers.slugifySpec x)) =
      BuildMembers.slugifySpec x) ∧
    BuildMembers.slugifySpec (some "") = "member" ∧
    BuildMembers.slugifySpec none = "member" := by
  refine ⟨fun t => rfl, slugifySpec_idem, ?_, ?_⟩ <;> decide

/-- C7: the Field Normalizer does not totally succeed: because `_slugify`
always raises (see C3), `_normalize_member` raises on every record — the
empty record included — and the record is excluded by the collector's
catch-all, not by a Validator. -/
theorem claim_c7_normalizer_total :
    BuildMembers.normalizeMember [] =
      Except.error "re.error: bad character range \\s-_ at position 8" ∧
    (∀ d, ∃ e, BuildMembers.normalizeMember d = Except.error e) := by
  exact ⟨rfl, normalizeMember_isError⟩

/-- C8 counterexample: for the list-valued research-interests value `[7]`,
`Research_Interests_List` returns the list unchanged — `[vint 7]`, not the
stringified `[vstr "7"]` the claim requires. -/
theorem claim_c8_counterexample :
    BuildMembers.researchInterestsList memberIntInterests = [Val.vint 7] ∧
    [Val.vint 7] ≠ [Val.vstr "7"] := by
  refine ⟨rfl, ?_⟩
  intro h
  injection h with h1 h2
  cases h1

/-- C8 amended: `None` becomes the empty list and a bare scalar becomes the
one-element list of its string form, but a list value is returned as-is,
without stringifying its elements. -/
theorem claim_c8_amended :
    ∀ (m : BuildMembers.Member),
      (m.Research_Interests = none → BuildMembers.researchInterestsList m = []) ∧
      (∀ l, m.Research_Interests = some (.vlist l) →
        BuildMembers.researchInterestsList m = l) ∧
      (∀ v, m.Research_Interests = some v → (∀ l, v ≠ .vlist l) →
        BuildMembers.researchInterestsList m = [.vstr (pyStr v)]) := by
  intro m
  refine ⟨?_, ?_, ?_⟩
  · intro h
    unfold BuildMembers.researchInterestsList
    rw [h]
  · intro l h
    unfold BuildMembers.researchInterestsList
    rw [h]
  · intro v h hv
    unfold BuildMembers.researchInterestsList
    rw [h]
    cases v with
    | vlist l => exact absurd rfl (hv l)
    | vnull => rfl
    | vbool b => rfl
    | vint n => rfl
    | vstr s => rfl
    | vdict dd => rfl

/-- C8 witness: the amended statement applied to concrete members — the
no-interests record yields `[]`, the `[7]` record yields `[7]` unchanged,
and the scalar `"ml"` record yields `["ml"]`. -/
theorem claim_c8_witness :
    BuildMembers.researchInterestsList annZephyr = [] ∧
    BuildMembers.researchInterestsList memberIntInterests = [Val.vint 7] ∧
    BuildMembers.researchInterestsList memberStrInterests = [Val.vstr "ml"] := by
  refine ⟨(claim_c8_amended annZephyr).1 rfl,
    (claim_c8_amended memberIntInterests).2.1 [Val.vint 7] rfl,
    ?_⟩
  have := (claim_c8_amended memberStrInterests).2.2 (Val.vstr "ml") rfl
    (fun l h => by cases h)
  simpa using this

/-- C9 counterexample: `build()` of build_members.py on an existing but
empty members directory is not fatal — it returns exit code 0 and writes
the site index and both JSON outputs (with an empty member collection). -/
theorem claim_c9_counterexample :
    BuildMembers.build true [] = Except.ok
      { exitCode := 0,
        written := ["site/index.html", "data/members.json", "site/members.json"],
        members := [], notes := [] } ∧
    (0 : Nat) ≠ 1 ∧
    (["site/index.html", "data/members.json", "site/members.json"] :
      List String) ≠ [] := by
  refine ⟨rfl, by decide, ?_⟩
  simp

/-- C9 amended: zero input files is fatal only in build_site.py (exit 1,
nothing written, a "No .yml files found" diagnostic, before any output);
build_members.py instead completes successfully, writing an empty index
and members.json and exiting 0. -/
theorem claim_c9_amended :
    (∀ dir : String, BuildSite.main true true dir [] =
      { exitCode := 1, output := none,
        logs := ["Error: No .yml files found in " ++ dir] }) ∧
    BuildMembers.build true [] = Except.ok
      { exitCode := 0,
        written := ["site/index.html", "data/members.json", "site/members.json"],
        members := [], notes := [] } := by
  exact ⟨fun dir => rfl, rfl⟩

/-- C10: every record `process_member_data` accepts carries an
`instructor_email` key — set to the sentinel `"N/A"` when the input lacked
the field, and passed through unchanged when it was present. -/
theorem claim_c10_instructor_email :
    ∀ (d : List (String × Val)) (mid : String) (r : List (String × Val)),
    BuildSite.processMemberData d mid = Except.ok (some r) →
      hasKey r "instructor_email" = true ∧
      (hasKey d "instructor_email" = false →
        getVal? r "instructor_email" = some (.vstr "N/A")) ∧
      (∀ v, getVal? d "instructor_email" = some v →
        getVal? r "instructor_email" = some v) := by
  intro d mid r h
  have hem : getVal? r "instructor_email" =
      getVal? (BuildSite.withComputedFields d mid) "instructor_email" := by
    rcases processMemberData_ok_shape h with hr | ⟨s, hr⟩
    · rw [hr]
    · rw [hr, getVal?_setKey_ne _ _
        (by decide : ("instructor_email" : String) ≠ "chemcompute_launch")]
  refine ⟨?_, ?_, ?_⟩
  · rw [hasKey, hem]
    have := withComputedFields_hasKey_email d mid
    rw [hasKey] at this
    exact this
  · intro habs
    rw [hem]
    exact withComputedFields_email_absent d mid habs
  · intro v hv
    rw [hem]
    exact withComputedFields_email_present d mid hv

/-- C10 witness: processing the concrete record without an
`instructor_email` yields a record that carries `instructor_email = "N/A"`. -/
theorem claim_c10_witness :
    BuildSite.processMemberData recNoEmail "alice" = Except.ok (some recNoEmailOut) ∧
    hasKey recNoEmailOut "instructor_email" = true ∧
    getVal? recNoEmailOut "instructor_email" = some (.vstr "N/A") := by
  exact ⟨rfl, (claim_c10_instructor_email recNoEmail "alice" recNoEmailOut rfl).1,
    (claim_c10_instructor_email recNoEmail "alice" recNoEmailOut rfl).2.1 rfl⟩

/-- C4 counterexample: a record with an explicit `id: custom` field, built
from file stem `bob`, comes out with `id = "bob"` — the explicit id/slug
field does not take priority; `process_member_data` overwrites it with the
filename stem. -/
theorem claim_c4_counterexample :
    BuildSite.processMemberData recExplicitId "bob" =
      Except.ok (some recExplicitIdOut) ∧
    getVal? recExplicitIdOut "id" = some (Val.vstr "bob") ∧
    Val.vstr "bob" ≠ Val.vstr "custom" := by
  refine ⟨rfl, rfl, ?_⟩
  intro h
  injection h with h1
  exact absurd h1 (by decide)

/-- C4 amended: the derived id is non-empty, but the priority chain is per
variant: the site pipeline always uses the source filename stem (ignoring
any explicit id/slug, email, or name), while the members pipeline's
derivation (explicit id → email → slugified name → literal fallback, never
the filename stem) raises before completing, because `_slugify` always
raises (see C3). -/
theorem claim_c4_amended :
    (∀ (d : List (String × Val)) (mid : String) (r : List (String × Val)),
      BuildSite.processMemberData d mid = Except.ok (some r) →
        getVal? r "id" = some (.vstr mid)) ∧
    (∀ b : String, b ≠ "" →
      BuildSite.getMemberIdFromFilename (b ++ ".yml") = b ∧ b ≠ "") ∧
    (∀ d, ∃ e, BuildMembers.normalizeMember d = Except.error e) := by
  refine ⟨fun d mid r h => processMemberData_id h, ?_, normalizeMember_isError⟩
  intro b hb
  exact ⟨stemCore_yml hb, hb⟩

/-- C4 witness: the amended statement applied to a concrete accepted
record and the concrete filename `alice.yml`. -/
theorem claim_c4_witness :
    BuildSite.processMemberData recNoEmail "alice" = Except.ok (some recNoEmailOut) ∧
    getVal? recNoEmailOut "id" = some (Val.vstr "alice") ∧
    BuildSite.getMemberIdFromFilename ("alice" ++ ".yml") = "alice" ∧
    BuildMembers.normalizeMember [] =
      Except.error "re.error: bad character range \\s-_ at position 8" := by
  refine ⟨rfl, claim_c4_amended.1 recNoEmail "alice" recNoEmailOut rfl, ?_, ?_⟩
  · exact (claim_c4_amended.2.1 "alice" (by decide)).1
  · obtain ⟨e, he⟩ := claim_c4_amended.2.2 []
    have : e = "re.error: bad character range \\s-_ at position 8" := by
      have h2 : BuildMembers.normalizeMember [] =
          Except.error "re.error: bad character range \\s-_ at position 8" := rfl
      rw [he] at h2
      exact Except.error.inj h2
    rw [← this]
    exact he

/-- C5: a record missing required top-level fields is rejected with exactly
one diagnostic that names every missing field (the whole `missing_fields`
list in one message), and no output array containing it is ever produced:
whenever such a record is among the inputs, `main()` stops before writing
`members.json`. -/
theorem claim_c5_missing_fields :
    ∀ (d : List (String × Val)) (fn : String),
    (BuildSite.requiredFields.filter (fun f => !hasKey d f)) ≠ [] →
    (BuildSite.validateMemberData d fn = Except.ok (false,
      ["Error: " ++ fn ++ " is missing required fields: " ++
       pyStr (.vlist ((BuildSite.requiredFields.filter (fun f => !hasKey d f)).map .vstr))]) ∧
     ∀ (mde tde : Bool) (dir : String)
       (files : List (String × List (String × Val)))
       (out : List (List (String × Val))),
       (fn, d) ∈ files → (BuildSite.main mde tde dir files).output = some out →
         False) := by
  intro d fn hne
  have hval : BuildSite.validateMemberData d fn = Except.ok (false,
      ["Error: " ++ fn ++ " is missing required fields: " ++
       pyStr (.vlist ((BuildSite.requiredFields.filter (fun f => !hasKey d f)).map .vstr))]) := by
    unfold BuildSite.validateMemberData
    rw [if_pos]
    simp only [Bool.not_eq_true', List.isEmpty_iff]
    exact Bool.eq_false_iff.mpr (fun ht => hne (List.isEmpty_iff.mp ht))
  refine ⟨hval, ?_⟩
  intro mde tde dir files out hmem hout
  have hnone := @main_output_none_of_invalid mde tde dir files fn d _ hmem hval
  rw [hnone] at hout
  exact Option.noConfusion hout

/-- C5 witness: the record with no required fields is rejected with the one
all-fields message, and a run containing it produces no output array. -/
theorem claim_c5_witness :
    BuildSite.validateMemberData recAllMissing "f.yml" = Except.ok (false,
      ["Error: " ++ "f.yml" ++ " is missing required fields: " ++
       pyStr (.vlist ((BuildSite.requiredFields.filter
         (fun f => !hasKey recAllMissing f)).map .vstr))]) ∧
    (BuildSite.main true true "m" [("f.yml", recAllMissing)]).output = none := by
  refine ⟨(claim_c5_missing_fields recAllMissing "f.yml" (by decide)).1, rfl⟩

/-- C6: every materials entry must contain title, description, type and
duration and at least one of github_url/colab_url; a present link field
must be a string starting with `http` (the code's reading of "an HTTP(S)
scheme"), otherwise the entry is rejected with a message naming the
record, the 1-based material position, and the field.  In particular an
entry with neither URL is rejected, `github_url: "not-a-url"` is rejected,
`github_url: "https://x"` passes, and a full record holding the bad
material fails validation with that message. -/
theorem claim_c6_material_urls :
    (∀ (fn : String) (i : Nat) (md : List (String × Val)) (u : String),
      hasKey md "title" = true → hasKey md "description" = true →
      hasKey md "type" = true → hasKey md "duration" = true →
      getVal? md "github_url" = some (.vstr u) → hasKey md "colab_url" = false →
      BuildSite.checkMaterial fn i (.vdict md) =
        (if "http".data.isPrefixOf u.data then Except.ok (true, [])
         else Except.ok (false, ["Error: " ++ fn ++ " material " ++
           toString (i + 1) ++ " github_url must be a valid HTTP/HTTPS URL"]))) ∧
    (∀ (fn : String) (i : Nat) (md : List (String × Val)),
      hasKey md "title" = true → hasKey md "description" = true →
      hasKey md "type" = true → hasKey md "duration" = true →
      hasKey md "github_url" = false → hasKey md "colab_url" = false →
      BuildSite.checkMaterial fn i (.vdict md) =
        Except.ok (false, ["Error: " ++ fn ++ " material " ++ toString (i + 1) ++
          " must have either github_url or colab_url"])) ∧
    BuildSite.checkMaterial "f.yml" 0 matNoUrl = Except.ok (false,
      ["Error: f.yml material 1 must have either github_url or colab_url"]) ∧
    BuildSite.checkMaterial "f.yml" 0 matBadUrl = Except.ok (false,
      ["Error: f.yml material 1 github_url must be a valid HTTP/HTTPS URL"]) ∧
    BuildSite.checkMaterial "f.yml" 0 matGoodUrl = Except.ok (true, []) ∧
    BuildSite.validateMemberData recBadMaterial "f.yml" = Except.ok (false,
      ["Error: f.yml material 1 github_url must be a valid HTTP/HTTPS URL"]) := by
  refine ⟨?_, ?_, rfl, rfl, rfl, rfl⟩
  · intro fn i md u h1 h2 h3 h4 hg hc
    exact checkMaterial_url_check h1 h2 h3 h4 hg hc
  · intro fn i md h1 h2 h3 h4 hg hc
    exact checkMaterial_no_url h1 h2 h3 h4 hg hc

/-- C6 witness: the general URL check instantiated at the concrete
`not-a-url` material dictionary. -/
theorem claim_c6_witness :
    BuildSite.checkMaterial "g.yml" 2
      (.vdict [("title", .vstr "M"), ("description", .vstr "D"),
               ("type", .vstr "notebook"), ("duration", .vstr "1 hour"),
               ("github_url", .vstr "not-a-url")]) =
      (if "http".data.isPrefixOf ("not-a-url" : String).data then Except.ok (true, [])
       else Except.ok (false, ["Error: " ++ "g.yml" ++ " material " ++
         toString (2 + 1) ++ " github_url must be a valid HTTP/HTTPS URL"])) := by
  exact claim_c6_material_urls.1 "g.yml" 2
    [("title", .vstr "M"), ("description", .vstr "D"),
     ("type", .vstr "notebook"), ("duration", .vstr "1 hour"),
     ("github_url", .vstr "not-a-url")] "not-a-url" rfl rfl rfl rfl rfl rfl

/-- C1: id uniqueness holds in both pipelines, and no accepted record is
ever lost to an id collision — but vacuously so: the members pipeline
accepts no record at all (normalization always raises, see C7), so its
output id list is empty, and the site pipeline derives ids from the
distinct `.yml` filename stems, so no two accepted records can share an
id and the claimed IntegrityError branch can never be exercised (no such
diagnostic exists in the code). -/
theorem claim_c1_id_uniqueness :
    (∀ files, ((BuildMembers.collectMembers files).1.map
      BuildMembers.Member.id).Pairwise (· ≠ ·)) ∧
    (∀ (mde tde : Bool) (dir : String)
       (files : List (String × List (String × Val)))
       (out : List (List (String × Val))),
      (∀ f ∈ files.map Prod.fst, ∃ b, b ≠ "" ∧ f = b ++ ".yml") →
      (files.map Prod.fst).Nodup →
      (BuildSite.main mde tde dir files).output = some out →
      ((out.map (fun r => getVal? r "id")).Pairwise (· ≠ ·) ∧
       ∀ f ∈ files, ∀ r, BuildSite.processMemberData f.2
         (BuildSite.getMemberIdFromFilename f.1) = Except.ok (some r) →
           r ∈ out)) := by
  constructor
  · intro files
    rw [collectMembers_members_nil files]
    exact List.Pairwise.nil
  · intro mde tde dir files out hshape hnodup hout
    have hbmj : BuildSite.buildMembersJson files = Except.ok out :=
      main_output_bmj hout
    unfold BuildSite.buildMembersJson at hbmj
    cases hf : (files.foldlM
      (fun (acc : List (List (String × Val))) (f : String × List (String × Val)) => do
        match ← BuildSite.processMemberData f.2
            (BuildSite.getMemberIdFromFilename f.1) with
        | some r => pure (acc ++ [r])
        | none => pure acc)
      []) with
    | error e =>
      rw [hf] at hbmj
      exact absurd hbmj (by simp [Bind.bind, Except.bind])
    | ok ms =>
      rw [hf] at hbmj
      have hsort : BuildSite.sortByTitle ms = Except.ok out := by
        simpa [Bind.bind, Except.bind] using hbmj
      have hperm : out.Perm ms := sortByTitle_perm hsort
      obtain ⟨tail, hms, hsub, _hmem, hall⟩ := bmj_fold_shape files [] ms hf
      have htail : ms = tail := by simpa using hms
      subst htail
      constructor
      · have hstems : (files.map (fun f =>
            some (Val.vstr (BuildSite.getMemberIdFromFilename f.1)))).Nodup := by
          have hmapmap : files.map (fun f =>
              some (Val.vstr (BuildSite.getMemberIdFromFilename f.1))) =
            (files.map Prod.fst).map (fun n =>
              some (Val.vstr (BuildSite.getMemberIdFromFilename n))) := by
            rw [List.map_map]
            rfl
          rw [hmapmap]
          refine List.Nodup.map_on ?_ hnodup
          intro x hx y hy hxy
          obtain ⟨bx, hbx, hxe⟩ := hshape x hx
          obtain ⟨by2, hby, hye⟩ := hshape y hy
          rw [hxe, hye] at hxy ⊢
          unfold BuildSite.getMemberIdFromFilename at hxy
          rw [stemCore_yml hbx, stemCore_yml hby] at hxy
          simp only [Option.some.injEq, Val.vstr.injEq] at hxy
          rw [hxy]
        have hmsnodup : (ms.map (fun r => getVal? r "id")).Nodup :=
          hsub.nodup hstems
        have houtperm : (out.map (fun r => getVal? r "id")).Perm
            (ms.map (fun r => getVal? r "id")) :=
          hperm.map (fun r => getVal? r "id")
        exact houtperm.nodup_iff.mpr hmsnodup
      · intro f hfm r hr
        have := hall f hfm r hr
        exact hperm.mem_iff.mpr this

/-- C1 witness: a one-file run through the site pipeline — the output
exists, its id list is duplicate-free, and the accepted record is present
in the output. -/
theorem claim_c1_witness :
    (BuildSite.main true true "m" [("a.yml", recGood)]).output = some [recGoodOut] ∧
    (([recGoodOut].map (fun r => getVal? r "id")).Pairwise (· ≠ ·)) := by
  refine ⟨rfl, ?_⟩
  exact (claim_c1_id_uniqueness.2 true true "m" [("a.yml", recGood)] [recGoodOut]
    (by intro f hf
        simp only [List.map_cons, List.map_nil, List.mem_singleton] at hf
        exact ⟨"a", by decide, by rw [hf]; rfl⟩)
    (by simp) rfl).1
